import Mathlib

/-!
# Sourcetrail: the project orchestrator (`src/lib/Project.cpp`) and the license text
(`src/gen/License.cpp`)

A shallow embedding of `Project::load`, `Project::refresh`, `Project::forceRefresh`,
`Project::clearStorage` and `Project::buildIndex`, and of `License::load`,
`License::loadFromString`, `License::getLicenseString`, `License::addSignature` and the
accessors of `License`.

The orchestrator talks to collaborators whose code is not part of the sources
(`PersistentStorage`, `ProjectSettings`, `FileManager`, `Application`, the task classes).
Their answers are parameters of the model (`StorageOps`, `Environment`); every call the
orchestrator makes on them is recorded, in program order, in the `log` of the project.
-/

namespace Sourcetrail

/-! ## Data model -/

/-- The lifecycle states of a project (`ProjectStateType` in `Project.h`). -/
inductive ProjectState where
  | PROJECT_STATE_NOT_LOADED
  | PROJECT_STATE_EMPTY
  | PROJECT_STATE_LOADED
  | PROJECT_STATE_OUTDATED
  | PROJECT_STATE_OUTVERSIONED
  deriving DecidableEq, Repr

open ProjectState

/-- The `FileRegister` built by `buildIndex`: the flag given to its constructor
(`indexerThreadCount > 1`) and the paths handed over by `setFilePaths`. -/
structure FileRegister (Path : Type) where
  randomizeOrder : Bool
  filePaths : List Path
  deriving DecidableEq, Repr

/-- The call `fileRegister->setFilePaths(filesToParse)`. -/
def FileRegister.setFilePaths {Path : Type} (r : FileRegister Path) (files : List Path) :
    FileRegister Path :=
  { r with filePaths := files }

/-- The task objects `buildIndex` creates. Objects that are shared by pointer (the storage
handle, the storage mutex) are represented by their identity, a natural number.
  * `TaskCleanStorage storage filePaths`: `TaskCleanStorage(m_storage.get(), filesToClean)`
  * `IndexerTask storage mutex reg`: `createIndexerTask(m_storage.get(), storageMutex, fileRegister)`
  * `TaskParseWrapper storage reg task`: `TaskParseWrapper(m_storage.get(), fileRegister)`
    after `setTask(task)`
  * `TaskGroupSequential tasks`, `TaskGroupParallel tasks`: the groups after their `addTask` calls -/
inductive TaskNode (Path : Type) where
  | TaskCleanStorage (storage : Nat) (filePaths : List Path)
  | IndexerTask (storage : Nat) (mutex : Nat) (fileRegister : FileRegister Path)
  | TaskParseWrapper (storage : Nat) (fileRegister : FileRegister Path) (task : TaskNode Path)
  | TaskGroupSequential (tasks : List (TaskNode Path))
  | TaskGroupParallel (tasks : List (TaskNode Path))

/-- The calls the orchestrator makes on its collaborators, as they appear in the log. -/
inductive Event (Path : Type) where
  -- `NameHierarchy::setDelimiter(...)`
  | setDelimiter
  -- `std::make_shared<PersistentStorage>(dbPath)`, with the identity of the new handle
  | newStorage (id : Nat)
  -- `m_storageAccessProxy->setSubject(m_storage.get())`
  | setSubject (id : Nat)
  -- `m_storage->setup()`
  | setup
  -- `updateFileManager(m_fileManager)`
  | updateFileManager
  -- `Application::getInstance()->handleDialog(question, options)`
  | handleDialog (question : String) (options : List String)
  -- `m_storage->finishParsing()`
  | finishParsing
  -- `MessageFinishedParsing(errors, warnings, files, fullyFinished).dispatch()`
  | MessageFinishedParsing (errors warnings files : Nat) (fullyFinished : Bool)
  -- `MessageStatus(text).dispatch()`
  | MessageStatus (text : String)
  -- `m_storage.reset()`
  | resetStorage
  -- `m_storage->clear()`
  | clear
  -- entry into `Project::buildIndex`
  | buildIndex
  -- `m_storage->setProjectSettingsText(text)`
  | setProjectSettingsText (text : String)
  -- `m_fileManager.fetchFilePaths(m_storage->getInfoOnAllFiles())`
  | fetchFilePaths
  -- `m_storage->getDependingFilePaths(filePaths)`
  | getDependingFilePaths (filePaths : Finset Path)
  -- `Task::dispatch(taskSequential)`
  | dispatch (root : TaskNode Path)

/-- The three sets a `FileManager` reports after `fetchFilePaths`. -/
structure FileSets (Path : Type) where
  added : Finset Path
  updated : Finset Path
  removed : Finset Path

/-- Modelled from the spec: the `IndexStoreHandle` contract of section 6, that is the member
functions of `PersistentStorage` that `Project.cpp` calls (the class itself is not part of the
sources). `σ` is the persisted content of the store, `ι` what `getInfoOnAllFiles` returns. -/
structure StorageOps (σ ι Path : Type) where
  isEmpty : σ → Bool
  isIncompatible : σ → Bool
  getProjectSettingsText : σ → String
  setProjectSettingsText : String → σ → σ
  getInfoOnAllFiles : σ → ι
  getDependingFilePaths : σ → Finset Path → Finset Path
  clear : σ → σ
  setup : σ → σ
  finishParsing : σ → σ

/-- What the other collaborators answer while one member function of `Project` runs.
  * `reload n`: the result of the `n`-th call of `ProjectSettings::reload()`
  * `settingsText`: `TextAccess::createFromFile(projectSettingsPath.str())->getText()`
  * `hasGUI`: `Application::getInstance()->hasGUI()`; `isTrial`: `isTrial()`
  * `handleDialog question options`: the index `Application::handleDialog` returns
  * `indexerThreadCount`: `ApplicationSettings::getInstance()->getIndexerThreadCount()`
  * `fetchFilePaths info`: the added, updated and removed paths of `m_fileManager` after
    `fetchFilePaths(info)` -/
structure Environment (ι Path : Type) where
  reload : Nat → Bool
  settingsText : String
  hasGUI : Bool
  isTrial : Bool
  handleDialog : String → List String → Int
  indexerThreadCount : Int
  fetchFilePaths : ι → FileSets Path

/-- The orchestrator together with the part of the world it acts on.
  * `m_state`: the member `m_state`
  * `m_storage`: the member `m_storage`; `none` is the null pointer, `some id` a handle
  * `store`: the persisted content of the store at `dbPath`
  * `reloads`: how many times `ProjectSettings::reload()` was called so far
  * `fresh`: the next unused object identity
  * `log`: the calls made on collaborators so far, oldest first -/
structure Project (σ Path : Type) where
  m_state : ProjectState
  m_storage : Option Nat
  store : σ
  reloads : Nat
  fresh : Nat
  log : List (Event Path)

section Model

variable {σ ι Path : Type}

/-- The constructor `Project::Project`: state `PROJECT_STATE_NOT_LOADED`, no storage. -/
def Project.new (store : σ) : Project σ Path :=
  { m_state := PROJECT_STATE_NOT_LOADED, m_storage := none, store := store,
    reloads := 0, fresh := 0, log := [] }

/-- Append one call to the log. -/
def Project.emit (p : Project σ Path) (e : Event Path) : Project σ Path :=
  { p with log := p.log ++ [e] }

/-- The statement `m_storage = std::make_shared<PersistentStorage>(dbPath)`: a new handle on the
store at `dbPath`. -/
def Project.makeStorage (p : Project σ Path) : Project σ Path :=
  { p with m_storage := some p.fresh, fresh := p.fresh + 1,
           log := p.log ++ [Event.newStorage p.fresh] }

/-- The member function `Project::allowsRefresh`. -/
def allowsRefresh (_p : Project σ Path) : Bool := true

/-- The member function `Project::clearStorage`. -/
def clearStorage (S : StorageOps σ ι Path) (p : Project σ Path) : Project σ Path :=
  let p := if p.m_storage.isNone then p.makeStorage else p
  if p.m_storage.isSome then
    { p with store := S.clear p.store, m_state := PROJECT_STATE_EMPTY,
             log := p.log ++ [Event.clear] }
  else p

/-- Modelled from the spec: `utility::append` on two `std::set`s (declared in `utility/utility.h`,
not part of the sources): the second set is unioned into the first. -/
def utility_append [DecidableEq Path] (a b : Finset Path) : Finset Path := a ∪ b

/-- The contents of a `std::set<FilePath>` in iteration order. -/
def setToVector [LinearOrder Path] (s : Finset Path) : List Path := s.sort (· ≤ ·)

/-- The local variables of `buildIndex` after the dependency queries (lines 216 to 230). -/
structure IndexFiles (Path : Type) where
  addedFilePaths : Finset Path
  updatedFilePaths : Finset Path
  removedFilePaths : Finset Path
  filesToClean : List Path
  filesToParse : List Path

/-- Lines 216 to 230 of `buildIndex`: the sets of the file manager, the two dependency
queries on the store `s`, and the two vectors. -/
def indexFiles [LinearOrder Path] (S : StorageOps σ ι Path) (E : Environment ι Path) (s : σ) :
    IndexFiles Path :=
  let fm := E.fetchFilePaths (S.getInfoOnAllFiles s)
  let addedFilePaths := fm.added
  let updatedFilePaths := fm.updated
  let removedFilePaths := fm.removed
  let updatedFilePaths := utility_append updatedFilePaths (S.getDependingFilePaths s updatedFilePaths)
  let updatedFilePaths := utility_append updatedFilePaths (S.getDependingFilePaths s removedFilePaths)
  let filesToClean := setToVector removedFilePaths ++ setToVector updatedFilePaths
  let filesToParse := setToVector addedFilePaths ++ setToVector updatedFilePaths
  { addedFilePaths := addedFilePaths, updatedFilePaths := updatedFilePaths,
    removedFilePaths := removedFilePaths, filesToClean := filesToClean,
    filesToParse := filesToParse }

/-- Lines 239 to 261 of `buildIndex`: the task tree for storage handle `storage`, a mutex
with identity `mutex`, and the configured thread count. -/
def indexTaskTree (storage mutex : Nat) (indexerThreadCount : Int)
    (filesToClean filesToParse : List Path) : TaskNode Path :=
  let fileRegister : FileRegister Path :=
    (FileRegister.mk (decide (indexerThreadCount > 1)) []).setFilePaths filesToParse
  let taskParallelIndexing : TaskNode Path :=
    TaskNode.TaskGroupParallel
      (List.replicate indexerThreadCount.toNat (TaskNode.IndexerTask storage mutex fileRegister))
  TaskNode.TaskGroupSequential
    [TaskNode.TaskCleanStorage storage filesToClean,
     TaskNode.TaskParseWrapper storage fileRegister taskParallelIndexing]

/-- The member function `Project::buildIndex`. The result is `none` when `m_storage` is null, where the C++
dereferences a null pointer. -/
def buildIndex [LinearOrder Path] (S : StorageOps σ ι Path) (E : Environment ι Path)
    (p : Project σ Path) : Option (Project σ Path) :=
  match p.m_storage with
  | none => none
  | some storage =>
    let p := p.emit Event.buildIndex
    let p := { p with store := S.setProjectSettingsText E.settingsText p.store,
                      log := p.log ++ [Event.setProjectSettingsText E.settingsText] }
    let p := p.emit Event.fetchFilePaths
    let fm := E.fetchFilePaths (S.getInfoOnAllFiles p.store)
    let f := indexFiles S E p.store
    let p := p.emit (Event.getDependingFilePaths fm.updated)
    let p := p.emit (Event.getDependingFilePaths fm.removed)
    if f.filesToClean.length = 0 ∧ f.filesToParse.length = 0 then
      some (p.emit (Event.MessageFinishedParsing 0 0 0 true))
    else
      let storageMutex := p.fresh
      let p := { p with fresh := p.fresh + 1 }
      some (p.emit (Event.dispatch
        (indexTaskTree storage storageMutex E.indexerThreadCount f.filesToClean f.filesToParse)))

/-- The member function `Project::refresh`. The result of `reload()` is stored in a local and not looked at. -/
def refresh [LinearOrder Path] (S : StorageOps σ ι Path) (E : Environment ι Path)
    (p : Project σ Path) : Option (Project σ Path) :=
  if allowsRefresh p then
    let _loadedSettings := E.reload p.reloads
    let p := { p with reloads := p.reloads + 1 }
    let p := p.emit Event.updateFileManager
    match buildIndex S E p with
    | none => none
    | some p => some { p with m_state := PROJECT_STATE_LOADED }
  else some p

/-- The member function `Project::forceRefresh`. -/
def forceRefresh [LinearOrder Path] (S : StorageOps σ ι Path) (E : Environment ι Path)
    (p : Project σ Path) : Option (Project σ Path) :=
  let p := if allowsRefresh p then clearStorage S p else p
  refresh S E p

/-- The question of the dialog shown for an outdated project. -/
def outdatedQuestion : String :=
  "The project file was changed after the last indexing. The project needs to get fully reindexed to " ++
  "reflect the current project state. Do you want to reindex the project?"

/-- The question of the dialog shown for a project indexed by another version. -/
def outversionedQuestion : String :=
  "This project was indexed with a different version of Coati. It needs to be fully reindexed to be used " ++
  "with this version of Coati. Do you want to reindex the project?"

/-- The options of both dialogs. -/
def dialogOptions : List String := ["Yes", "No"]

/-- Lines 118 to 140 of `load`, run once the settings were reloaded: the storage is created
and the state is assigned from what the store reports. -/
def loadOpen (S : StorageOps σ ι Path) (E : Environment ι Path) (p : Project σ Path) :
    Project σ Path :=
  let p := p.emit Event.setDelimiter
  let storage := p.fresh
  let p := p.makeStorage
  let p := p.emit (Event.setSubject storage)
  if S.isEmpty p.store then
    { p with m_state := PROJECT_STATE_EMPTY, store := S.setup p.store,
             log := p.log ++ [Event.setup] }
  else if S.isIncompatible p.store then
    { p with m_state := PROJECT_STATE_OUTVERSIONED }
  else if E.settingsText ≠ S.getProjectSettingsText p.store then
    { p with m_state := PROJECT_STATE_OUTDATED }
  else
    { p with m_state := PROJECT_STATE_LOADED }

/-- The body shared by `case PROJECT_STATE_OUTDATED` (which falls through) and
`case PROJECT_STATE_LOADED`: lines 166 to 168. -/
def loadFinish (S : StorageOps σ ι Path) (p : Project σ Path) (reparse : Bool) :
    Option (Project σ Path × Bool) :=
  match p.m_storage with
  | none => none
  | some _ =>
    let p := { p with store := S.finishParsing p.store, log := p.log ++ [Event.finishParsing] }
    some (p.emit (Event.MessageFinishedParsing 0 0 0 true), reparse)

/-- Lines 144 to 187 of `load`: the `switch` on `m_state`. The result is the project after
the `switch` and the local `reparse`. -/
def loadSwitch [LinearOrder Path] (S : StorageOps σ ι Path) (E : Environment ι Path)
    (p : Project σ Path) : Option (Project σ Path × Bool) :=
  let reparse := false
  match p.m_state with
  | PROJECT_STATE_EMPTY =>
    match buildIndex S E p with
    | none => none
    | some p => some ({ p with m_state := PROJECT_STATE_LOADED }, reparse)
  | PROJECT_STATE_OUTDATED =>
    if E.hasGUI && !E.isTrial then
      let result := E.handleDialog outdatedQuestion dialogOptions
      let p := p.emit (Event.handleDialog outdatedQuestion dialogOptions)
      loadFinish S p (decide (result = 0))
    else
      loadFinish S p reparse
  | PROJECT_STATE_LOADED => loadFinish S p reparse
  | PROJECT_STATE_OUTVERSIONED =>
    let p := p.emit (Event.MessageStatus "Can't load project")
    let reparse := true
    if E.hasGUI && !E.isTrial then
      let result := E.handleDialog outversionedQuestion dialogOptions
      let p := p.emit (Event.handleDialog outversionedQuestion dialogOptions)
      let reparse := decide (result = 0)
      some ({ p with m_storage := none, log := p.log ++ [Event.resetStorage] }, reparse)
    else
      some ({ p with m_storage := none, log := p.log ++ [Event.resetStorage] }, reparse)
  | PROJECT_STATE_NOT_LOADED => some (p, reparse)

/-- The member function `Project::load`. -/
def load [LinearOrder Path] (S : StorageOps σ ι Path) (E : Environment ι Path)
    (p : Project σ Path) : Option (Project σ Path) :=
  let loadedSettings := E.reload p.reloads
  let p := { p with reloads := p.reloads + 1 }
  if loadedSettings then
    let p := loadOpen S E p
    let p := p.emit Event.updateFileManager
    match loadSwitch S E p with
    | none => none
    | some (p, reparse) => if reparse then forceRefresh S E p else some p
  else some p

/-! ## The log -/

/-- Is the event a `Task::dispatch`? -/
def Event.isDispatch : Event Path → Bool
  | Event.dispatch _ => true
  | _ => false

/-- Is the event a `MessageFinishedParsing`? -/
def Event.isMessageFinishedParsing : Event Path → Bool
  | Event.MessageFinishedParsing _ _ _ _ => true
  | _ => false

/-- Is the event a `finishParsing` call on the store? -/
def Event.isFinishParsing : Event Path → Bool
  | Event.finishParsing => true
  | _ => false

/-- Is the event a `clear` call on the store? -/
def Event.isClear : Event Path → Bool
  | Event.clear => true
  | _ => false

/-- Is the event an entry into `buildIndex`? -/
def Event.isBuildIndex : Event Path → Bool
  | Event.buildIndex => true
  | _ => false

/-- Is the event a `setProjectSettingsText` call on the store? -/
def Event.isSetProjectSettingsText : Event Path → Bool
  | Event.setProjectSettingsText _ => true
  | _ => false

/-- Is the event a dialog shown to the user? -/
def Event.isHandleDialog : Event Path → Bool
  | Event.handleDialog _ _ => true
  | _ => false

/-- Is the event the creation of a storage handle? -/
def Event.isNewStorage : Event Path → Bool
  | Event.newStorage _ => true
  | _ => false

/-- Is the event a dependency query on the store? -/
def Event.isGetDependingFilePaths : Event Path → Bool
  | Event.getDependingFilePaths _ => true
  | _ => false

/-- The events a member function added to the log: what `q.log` holds after the first
`p.log.length` entries. -/
def newEvents (p q : Project σ Path) : List (Event Path) := q.log.drop p.log.length

/-! ## The state table of the specification -/

/-- The table of section 4.1, step 3, in the words of the specification: empty gives `EMPTY`;
else incompatible gives `OUTVERSIONED`; else a differing settings text gives `OUTDATED`;
else `LOADED`. -/
def specLoadState (storeEmpty storeIncompatible textDiffers : Bool) : ProjectState :=
  match storeEmpty, storeIncompatible, textDiffers with
  | true, _, _ => PROJECT_STATE_EMPTY
  | false, true, _ => PROJECT_STATE_OUTVERSIONED
  | false, false, true => PROJECT_STATE_OUTDATED
  | false, false, false => PROJECT_STATE_LOADED

/-! ## Execution traces of a task tree -/

/-- The three kinds of task in the tree of `buildIndex`. -/
inductive TaskKind where
  | clean
  | parseWrapper
  | indexer
  deriving DecidableEq, Repr

/-- What an execution trace records: a task of some kind starts, or completes. -/
inductive TraceEvent where
  | started (kind : TaskKind)
  | completed (kind : TaskKind)
  deriving DecidableEq, Repr

/-- All interleavings of `x :: xs` with a second list, given the interleavings `r` of `xs`
with any list. -/
def interleaveAux {α : Type} (x : α) (xs : List α) (r : List α → List (List α)) :
    List α → List (List α)
  | [] => [x :: xs]
  | y :: ys => (r (y :: ys)).map (x :: ·) ++ (interleaveAux x xs r ys).map (y :: ·)

/-- All interleavings of two lists: every merge that keeps the order inside each list. -/
def interleave {α : Type} : List α → List α → List (List α)
  | [], ys => [ys]
  | x :: xs, ys => interleaveAux x xs (interleave xs) ys

mutual
/-- Modelled from the spec: the execution traces of a task tree (`TaskGroupSequential`,
`TaskGroupParallel` and `TaskParseWrapper` are not part of the sources). A leaf starts and
completes; a sequential group runs its children in order, each fully completing before the
next starts; a parallel group runs its children concurrently, in any interleaving; the parse
wrapper starts, runs the task it wraps, and completes. -/
def traces : TaskNode Path → List (List TraceEvent)
  | TaskNode.TaskCleanStorage _ _ =>
    [[TraceEvent.started TaskKind.clean, TraceEvent.completed TaskKind.clean]]
  | TaskNode.IndexerTask _ _ _ =>
    [[TraceEvent.started TaskKind.indexer, TraceEvent.completed TaskKind.indexer]]
  | TaskNode.TaskParseWrapper _ _ task =>
    (traces task).map (fun t =>
      TraceEvent.started TaskKind.parseWrapper :: t ++ [TraceEvent.completed TaskKind.parseWrapper])
  | TaskNode.TaskGroupSequential tasks => tracesSequential tasks
  | TaskNode.TaskGroupParallel tasks => tracesParallel tasks
termination_by structural t => t
/-- Modelled from the spec: the traces of the children of a sequential group, each child
fully completing before the next starts. -/
def tracesSequential : List (TaskNode Path) → List (List TraceEvent)
  | [] => [[]]
  | task :: tasks => (traces task).flatMap (fun t => (tracesSequential tasks).map (t ++ ·))
termination_by structural ts => ts
/-- Modelled from the spec: the traces of the children of a parallel group, with no ordering
among the children. -/
def tracesParallel : List (TaskNode Path) → List (List TraceEvent)
  | [] => [[]]
  | task :: tasks => (traces task).flatMap (fun t => (tracesParallel tasks).flatMap (interleave t))
termination_by structural ts => ts
end

/-! ## A small store and environment, to run the model -/

/-- A store with just the observations the orchestrator makes: two flags, the settings text,
and a table of (file, dependent) pairs. -/
structure DemoStore where
  empty : Bool
  incompatible : Bool
  text : String
  dependents : List (Nat × Nat)
  deriving DecidableEq, Repr

/-- The operations on a `DemoStore`: `clear` empties it, `setProjectSettingsText` replaces the
text, a dependency query looks the files up in the table. -/
def demoOps : StorageOps DemoStore Unit Nat where
  isEmpty s := s.empty
  isIncompatible s := s.incompatible
  getProjectSettingsText s := s.text
  setProjectSettingsText t s := { s with text := t }
  getInfoOnAllFiles _ := ()
  getDependingFilePaths s files :=
    ((s.dependents.filter (fun d => decide (d.1 ∈ files))).map (fun d => d.2)).toFinset
  clear _ := { empty := true, incompatible := false, text := "", dependents := [] }
  setup s := s
  finishParsing s := s

/-- An environment: whether reloading succeeds, whether a dialog can be shown, the answer
given to every dialog, the thread count and the sets of the file manager. -/
def demoEnv (reloadOk canAsk : Bool) (answer threads : Int) (added updated removed : Finset Nat) :
    Environment Unit Nat where
  reload _ := reloadOk
  settingsText := "new"
  hasGUI := canAsk
  isTrial := false
  handleDialog _ _ := answer
  indexerThreadCount := threads
  fetchFilePaths _ := { added := added, updated := updated, removed := removed }

/-- A project in state `state`, with or without a storage handle, on a demo store. -/
def demoProject (state : ProjectState) (storage : Option Nat) (store : DemoStore) :
    Project DemoStore Nat :=
  { m_state := state, m_storage := storage, store := store, reloads := 0, fresh := 1, log := [] }

/-! ## Sequences of calls -/

/-- The four member functions a client can call on a project. -/
inductive Call where
  | load
  | refresh
  | forceRefresh
  | clearStorage
  deriving DecidableEq, Repr

/-- Run one member function. The result is `none` where the C++ dereferences a null
`m_storage`. -/
def Call.run [LinearOrder Path] (S : StorageOps σ ι Path) (E : Environment ι Path) :
    Call → Project σ Path → Option (Project σ Path)
  | Call.load, p => Sourcetrail.load S E p
  | Call.refresh, p => Sourcetrail.refresh S E p
  | Call.forceRefresh, p => Sourcetrail.forceRefresh S E p
  | Call.clearStorage, p => some (Sourcetrail.clearStorage S p)

/-- One step of the life of a project: what happened to the store since the previous call
(the dispatched tasks and other writers may have changed it), the answers of the
collaborators during the call, and the member function called. -/
structure Step (σ ι Path : Type) where
  storeChange : σ → σ
  env : Environment ι Path
  call : Call

/-- Run a sequence of steps, oldest first. -/
def runCalls [LinearOrder Path] (S : StorageOps σ ι Path) :
    List (Step σ ι Path) → Project σ Path → Option (Project σ Path)
  | [], p => some p
  | step :: steps, p =>
    match step.call.run S step.env { p with store := step.storeChange p.store } with
    | none => none
    | some q => runCalls S steps q

end Model

/-! ## The license text (`src/gen/License.cpp`) -/

/-- A `std::string`: a sequence of characters. -/
abbrev StdString := List Char

/-- An input stream (`std::istream`): the characters not yet read and the state flags
`eofbit` and `failbit`. -/
structure IStream where
  rest : List Char
  eofbit : Bool
  failbit : Bool
  deriving DecidableEq, Repr

/-- The stream `std::istringstream license(licenseText)`: all of the text unread, no flag set. -/
def IStream.ofString (text : StdString) : IStream :=
  { rest := text, eofbit := false, failbit := false }

/-- What `std::getline` extracts from the unread characters: the characters before the first
newline, the characters after it, and whether a newline was found (it is consumed but not
stored). -/
def extractLine : List Char → List Char × List Char × Bool
  | [] => ([], [], false)
  | c :: cs =>
    if c = '\n' then ([], cs, true)
    else
      match extractLine cs with
      | (line, rest, found) => (c :: line, rest, found)

/-- The call `getline(stream, line)` of the standard library, with its result converted to
`bool` as in `if(!getline(stream, line))`. If the stream is not good (a flag is set) the
call sets `failbit` and leaves `line` as it is. Otherwise `line` is erased and characters
are extracted up to the next newline or the end of the input; reaching the end sets
`eofbit`, and extracting nothing at all sets `failbit`. The result is the stream, the line
and whether the call succeeded (`failbit` not set). -/
def getline (stream : IStream) (line : StdString) : IStream × StdString × Bool :=
  if stream.eofbit || stream.failbit then
    ({ stream with failbit := true }, line, false)
  else
    match extractLine stream.rest with
    | (extracted, rest, found) =>
      let failbit := !found && extracted.isEmpty
      ({ rest := rest, eofbit := !found, failbit := failbit }, extracted, !failbit)

/-- The lines `getline` reads from a stream when called `fuel` times, stopping at the first
call that fails. -/
def readLinesAux : Nat → IStream → List StdString
  | 0, _ => []
  | fuel + 1, stream =>
    match getline stream [] with
    | (stream, line, true) => line :: readLinesAux fuel stream
    | (_, _, false) => []

/-- All the lines `getline` can read from a stream: every successful call consumes at least
one character, so one call more than there are characters is enough. -/
def readLines (stream : IStream) : List StdString :=
  readLinesAux (stream.rest.length + 1) stream

/-- The object `License`, reduced to its member `lines`. -/
structure License where
  lines : List StdString
  deriving DecidableEq, Repr

/-- The locals of `License::load` that live across its statements. -/
structure LoadState where
  stream : IStream
  line : StdString
  lines : List StdString

/-- The statement `if(!getline(stream, line)) return false; lines.push_back(line);`, run
`n` times: the loops at lines 131 and 147 and the single read at line 139. The flag is
`false` when a `getline` failed, where `load` returns `false`. (The local `signature` of the
second loop is never read and is left out.) -/
def readAndPush : Nat → LoadState → LoadState × Bool
  | 0, st => (st, true)
  | n + 1, st =>
    match getline st.stream st.line with
    | (stream, line, true) =>
      readAndPush n { stream := stream, line := line, lines := st.lines ++ [line] }
    | (stream, line, false) => ({ st with stream := stream, line := line }, false)

/-- Lines 129 to 168 of `License::load`: the line after the header is pushed, ten more lines
are read and pushed, and the footer is read and checked. The result is the return value and
`lines`. -/
def loadRest (END_LICENSE : StdString) (st : LoadState) : Bool × List StdString :=
  let st := { st with lines := st.lines ++ [st.line] }
  match readAndPush 2 st with
  | (st, false) => (false, st.lines)
  | (st, true) =>
    match readAndPush 1 st with
    | (st, false) => (false, st.lines)
    | (st, true) =>
      match readAndPush 7 st with
      | (st, false) => (false, st.lines)
      | (st, true) =>
        match getline st.stream st.line with
        | (_, line, _) =>
          if line ≠ END_LICENSE then (true, st.lines ++ [END_LICENSE])
          else (true, st.lines ++ [line])

/-- The member function `License::load`, for the constants `BEGIN_LICENSE` and `END_LICENSE`
of `License.h`. The result is the return value and the license after the call. -/
def License.load (BEGIN_LICENSE END_LICENSE : StdString) (stream : IStream) : Bool × License :=
  let lines : List StdString := []
  match getline stream [] with
  | (_, _, false) => (false, { lines := lines })
  | (stream, line, true) =>
    if line ≠ BEGIN_LICENSE then
      match loadRest END_LICENSE
        { stream := stream, line := line, lines := lines ++ [BEGIN_LICENSE] } with
      | (result, lines) => (result, { lines := lines })
    else
      let lines := lines ++ [line]
      match getline stream line with
      | (_, _, false) => (false, { lines := lines })
      | (stream, line, true) =>
        match loadRest END_LICENSE { stream := stream, line := line, lines := lines } with
        | (result, lines) => (result, { lines := lines })

/-- The member function `License::loadFromString`. -/
def License.loadFromString (BEGIN_LICENSE END_LICENSE : StdString) (licenseText : StdString) :
    Bool × License :=
  License.load BEGIN_LICENSE END_LICENSE (IStream.ofString licenseText)

/-- The member function `License::getLicenseString`: every line followed by `std::endl`. -/
def License.getLicenseString (license : License) : StdString :=
  license.lines.flatMap (fun line => line ++ ['\n'])

/-- The loop `for(int i = start; i < start + n; ++i) text += lines[i];`. The result is `none`
when an index is out of bounds. -/
def appendLines (lines : List StdString) : Nat → Nat → StdString → Option StdString
  | _, 0, text => some text
  | i, n + 1, text =>
    match lines[i]? with
    | none => none
    | some line => appendLines lines (i + 1) n (text ++ line)

/-- The member function `License::getOwnerLine`: `lines[1]`. -/
def License.getOwnerLine (license : License) : Option StdString := license.lines[1]?

/-- The member function `License::getLicenseTypeLine`: `lines[2]`. -/
def License.getLicenseTypeLine (license : License) : Option StdString := license.lines[2]?

/-- The member function `License::getVersionLine`: `lines[3]`. -/
def License.getVersionLine (license : License) : Option StdString := license.lines[3]?

/-- The member function `License::getHashLine`: `lines[4]`. -/
def License.getHashLine (license : License) : Option StdString := license.lines[4]?

/-- The member function `License::getMessage`: `lines[1]` to `lines[4]`, concatenated. -/
def License.getMessage (license : License) : Option StdString :=
  appendLines license.lines 1 4 []

/-- The member function `License::getSignature`: `lines[5]` to `lines[11]`, concatenated. -/
def License.getSignature (license : License) : Option StdString :=
  appendLines license.lines 5 7 []

/-- The loop of `License::addSignature` from index `i` on: `lines`, the buffer `ss` and the
characters of the signature still to come. -/
def addSignatureLoop : Nat → List StdString → StdString → List Char → List StdString × StdString
  | _, lines, ss, [] => (lines, ss)
  | i, lines, ss, c :: cs =>
    if i % 55 = 0 ∧ i ≠ 0 then addSignatureLoop (i + 1) (lines ++ [ss]) [c] cs
    else addSignatureLoop (i + 1) lines (ss ++ [c]) cs

/-- The member function `License::addSignature`. -/
def License.addSignature (END_LICENSE : StdString) (license : License) (signature : StdString) :
    License :=
  if license.lines.length > 5 then license
  else if signature.length = 0 then license
  else
    match addSignatureLoop 0 license.lines [] signature with
    | (lines, ss) => { lines := (lines ++ [ss]) ++ [END_LICENSE] }

/-! ## Theorems -/

section Theorems

variable {σ ι Path : Type}

/-- C1: when the settings reload of `load` succeeds, the state assigned by lines 124 to 140 is
the entry of the specification table for (store empty, store incompatible, settings text
differs), in that priority order; up to that point the log holds only the creation of the
storage (and `setup` for an empty store), and the rest of `load` runs from that state. -/
theorem C1_load_state_is_table [LinearOrder Path] (S : StorageOps σ ι Path)
    (E : Environment ι Path) (p : Project σ Path) (hreload : E.reload p.reloads = true) :
    (loadOpen S E { p with reloads := p.reloads + 1 }).m_state =
        specLoadState (S.isEmpty p.store) (S.isIncompatible p.store)
          (decide (E.settingsText ≠ S.getProjectSettingsText p.store)) ∧
      (loadOpen S E { p with reloads := p.reloads + 1 }).log =
        p.log ++ [Event.setDelimiter, Event.newStorage p.fresh, Event.setSubject p.fresh] ++
          (if S.isEmpty p.store then [Event.setup] else []) ∧
      load S E p =
        (loadSwitch S E
          ((loadOpen S E { p with reloads := p.reloads + 1 }).emit Event.updateFileManager)).bind
          (fun r => if r.2 then forceRefresh S E r.1 else some r.1) := by
  refine ⟨?_, ?_, ?_⟩
  · unfold loadOpen specLoadState Project.emit Project.makeStorage
    cases h1 : S.isEmpty p.store <;> cases h2 : S.isIncompatible p.store <;>
      by_cases h3 : E.settingsText = S.getProjectSettingsText p.store <;> simp [h1, h2, h3]
  · unfold loadOpen Project.emit Project.makeStorage
    cases h1 : S.isEmpty p.store <;> cases h2 : S.isIncompatible p.store <;>
      by_cases h3 : E.settingsText = S.getProjectSettingsText p.store <;> simp [h1, h2, h3]
  · unfold load
    simp only [hreload, if_true]
    cases loadSwitch S E
      ((loadOpen S E { p with reloads := p.reloads + 1 }).emit Event.updateFileManager) with
    | none => rfl
    | some r => rfl

/-- C1, run on a store that is neither empty nor incompatible and whose text snapshot is
old: the state assigned is `OUTDATED`. -/
theorem C1_load_state_is_table_witness :
    (loadOpen demoOps (demoEnv true false 1 1 ∅ ∅ ∅)
      { demoProject PROJECT_STATE_NOT_LOADED none ⟨false, false, "old", []⟩ with
        reloads := 1 }).m_state = PROJECT_STATE_OUTDATED :=
  (C1_load_state_is_table demoOps (demoEnv true false 1 1 ∅ ∅ ∅)
    (demoProject PROJECT_STATE_NOT_LOADED none ⟨false, false, "old", []⟩) rfl).1.trans
    (by decide)

/-- C2: when the settings reload of `load` fails, `load` returns with nothing changed but
the count of reloads: state, storage handle, store content and log are as before, so no
handle is created, no index build is started, no dialog is shown and no message is sent. -/
theorem C2_load_reload_fails_inert [LinearOrder Path] (S : StorageOps σ ι Path)
    (E : Environment ι Path) (p : Project σ Path) (hreload : E.reload p.reloads = false) :
    load S E p = some { p with reloads := p.reloads + 1 } ∧
      ∀ q, load S E p = some q →
        q.m_state = p.m_state ∧ q.m_storage = p.m_storage ∧ q.store = p.store ∧
          q.log = p.log ∧ newEvents p q = [] := by
  have h : load S E p = some { p with reloads := p.reloads + 1 } := by
    unfold load
    simp [hreload]
  refine ⟨h, ?_⟩
  intro q hq
  rw [h] at hq
  cases hq
  simp [newEvents]

/-- C2, run on a freshly constructed project: the state stays `NOT_LOADED` and there is no
storage handle. -/
theorem C2_load_reload_fails_inert_witness :
    load demoOps (demoEnv false true 0 1 ∅ ∅ ∅) (Project.new ⟨false, false, "old", []⟩) =
      some { m_state := PROJECT_STATE_NOT_LOADED, m_storage := none,
             store := ⟨false, false, "old", []⟩, reloads := 1, fresh := 0, log := [] } :=
  (C2_load_reload_fails_inert demoOps (demoEnv false true 0 1 ∅ ∅ ∅)
    (Project.new ⟨false, false, "old", []⟩) rfl).1

/-! ### `buildIndex` -/

/-- What `buildIndex` does on a project with a storage handle: it returns, the handle and the
state are kept, the store gets the current settings text, and six calls are logged, the last
one being either the finished message or the dispatch of the task tree. -/
theorem buildIndex_spec [LinearOrder Path] (S : StorageOps σ ι Path) (E : Environment ι Path)
    (p : Project σ Path) (storage : Nat) (h : p.m_storage = some storage) :
    ∃ q, buildIndex S E p = some q ∧ q.m_state = p.m_state ∧ q.m_storage = some storage ∧
      q.store = S.setProjectSettingsText E.settingsText p.store ∧ q.reloads = p.reloads ∧
      q.log = p.log ++
        [Event.buildIndex, Event.setProjectSettingsText E.settingsText, Event.fetchFilePaths,
         Event.getDependingFilePaths (E.fetchFilePaths (S.getInfoOnAllFiles
            (S.setProjectSettingsText E.settingsText p.store))).updated,
         Event.getDependingFilePaths (E.fetchFilePaths (S.getInfoOnAllFiles
            (S.setProjectSettingsText E.settingsText p.store))).removed,
         if (indexFiles S E (S.setProjectSettingsText E.settingsText p.store)).filesToClean = [] ∧
            (indexFiles S E (S.setProjectSettingsText E.settingsText p.store)).filesToParse = []
         then Event.MessageFinishedParsing 0 0 0 true
         else Event.dispatch (indexTaskTree storage p.fresh E.indexerThreadCount
            (indexFiles S E (S.setProjectSettingsText E.settingsText p.store)).filesToClean
            (indexFiles S E (S.setProjectSettingsText E.settingsText p.store)).filesToParse)] := by
  unfold buildIndex
  simp only [h, Project.emit, List.length_eq_zero]
  split
  · next hc => exact ⟨_, rfl, rfl, rfl, rfl, rfl, by simp [hc]⟩
  · next hc => exact ⟨_, rfl, rfl, rfl, rfl, rfl, by simp [hc]⟩

/-- The events added by a function whose log is the old log followed by `l`. -/
theorem newEvents_of_log_eq (p q : Project σ Path) (l : List (Event Path))
    (h : q.log = p.log ++ l) : newEvents p q = l := by
  simp [newEvents, h]

/-- C6: on a project with a storage handle `buildIndex` returns, and if `filesToClean` and
`filesToParse` are both empty it dispatches no task tree and sends exactly one finished
message, with counts (0, 0, 0) and `fullyFinished = true`; otherwise it sends no finished
message and dispatches exactly one task tree, the one built from the two vectors. -/
theorem C6_buildIndex_finished_or_dispatch [LinearOrder Path] (S : StorageOps σ ι Path)
    (E : Environment ι Path) (p : Project σ Path) (storage : Nat)
    (h : p.m_storage = some storage) :
    ∃ q, buildIndex S E p = some q ∧
      (((indexFiles S E (S.setProjectSettingsText E.settingsText p.store)).filesToClean = [] ∧
        (indexFiles S E (S.setProjectSettingsText E.settingsText p.store)).filesToParse = []) →
          (newEvents p q).filter Event.isDispatch = [] ∧
          (newEvents p q).filter Event.isMessageFinishedParsing =
            [Event.MessageFinishedParsing 0 0 0 true]) ∧
      (¬ ((indexFiles S E (S.setProjectSettingsText E.settingsText p.store)).filesToClean = [] ∧
          (indexFiles S E (S.setProjectSettingsText E.settingsText p.store)).filesToParse = []) →
          (newEvents p q).filter Event.isMessageFinishedParsing = [] ∧
          (newEvents p q).filter Event.isDispatch =
            [Event.dispatch (indexTaskTree storage p.fresh E.indexerThreadCount
              (indexFiles S E (S.setProjectSettingsText E.settingsText p.store)).filesToClean
              (indexFiles S E (S.setProjectSettingsText E.settingsText p.store)).filesToParse)]) := by
  obtain ⟨q, hq, -, -, -, -, hlog⟩ := buildIndex_spec S E p storage h
  refine ⟨q, hq, ?_, ?_⟩
  · intro hc
    rw [newEvents_of_log_eq p q _ hlog]
    simp [hc, List.filter, Event.isDispatch, Event.isMessageFinishedParsing]
  · intro hc
    rw [newEvents_of_log_eq p q _ hlog]
    simp [hc, List.filter, Event.isDispatch, Event.isMessageFinishedParsing]

/-- C6, run with nothing added, updated or removed: one finished message, no dispatch. -/
theorem C6_buildIndex_finished_or_dispatch_witness :
    ∃ q, buildIndex demoOps (demoEnv true false 1 2 ∅ ∅ ∅)
        (demoProject PROJECT_STATE_EMPTY (some 0) ⟨true, false, "", []⟩) = some q ∧
      (newEvents (demoProject PROJECT_STATE_EMPTY (some 0) ⟨true, false, "", []⟩) q).filter
        Event.isDispatch = [] ∧
      (newEvents (demoProject PROJECT_STATE_EMPTY (some 0) ⟨true, false, "", []⟩) q).filter
        Event.isMessageFinishedParsing = [Event.MessageFinishedParsing 0 0 0 true] := by
  obtain ⟨q, hq, h1, -⟩ := C6_buildIndex_finished_or_dispatch demoOps
    (demoEnv true false 1 2 ∅ ∅ ∅)
    (demoProject PROJECT_STATE_EMPTY (some 0) ⟨true, false, "", []⟩) 0 rfl
  exact ⟨q, hq, h1 ⟨by simp [indexFiles, setToVector, utility_append, demoEnv, demoOps],
    by simp [indexFiles, setToVector, utility_append, demoEnv, demoOps]⟩⟩

/-- C7: `forceRefresh` is `clearStorage` followed by `refresh`, and whatever the project was
(storage handle present or not), right after `clearStorage` the state is `EMPTY`, a storage
handle is present, the store is the cleared store and `clear` is the last call made. -/
theorem C7_forceRefresh_empty_after_clear [LinearOrder Path] (S : StorageOps σ ι Path)
    (E : Environment ι Path) (p : Project σ Path) :
    forceRefresh S E p = refresh S E (clearStorage S p) ∧
      (clearStorage S p).m_state = PROJECT_STATE_EMPTY ∧
      (clearStorage S p).store = S.clear p.store ∧
      (clearStorage S p).m_storage.isSome = true ∧
      (clearStorage S p).log.getLast? = some Event.clear := by
  refine ⟨by simp [forceRefresh, allowsRefresh], ?_⟩
  unfold clearStorage Project.makeStorage
  cases hs : p.m_storage <;> simp [hs]

/-- The vector made from a set has the members of the set. -/
theorem mem_setToVector [LinearOrder Path] (s : Finset Path) (x : Path) :
    x ∈ setToVector s ↔ x ∈ s := by
  simp [setToVector]

/-- The vector made from a set, read as a set again, is the set. -/
theorem setToVector_toFinset [LinearOrder Path] (s : Finset Path) :
    (setToVector s).toFinset = s := by
  simp [setToVector]

/-- C3: on a project with a storage handle `buildIndex` returns; it queries the store for
dependents exactly twice, first with the updated set of the file manager and then with its
removed set; the updated set becomes updated ∪ dep(updated) ∪ dep(removed) while the added
and removed sets stay as reported; `filesToClean` is the removed files followed by the
expanded updated files and `filesToParse` the added files followed by the expanded updated
files, so as sets they are removed ∪ updated' and added ∪ updated'; and when there is work,
the dispatched tree is the one built from these two vectors. -/
theorem C3_buildIndex_file_sets [LinearOrder Path] (S : StorageOps σ ι Path)
    (E : Environment ι Path) (p : Project σ Path) (storage : Nat)
    (h : p.m_storage = some storage) :
    ∃ q, buildIndex S E p = some q ∧
      ∀ (s : σ) (fm : FileSets Path) (updated' : Finset Path) (f : IndexFiles Path),
        s = S.setProjectSettingsText E.settingsText p.store →
        fm = E.fetchFilePaths (S.getInfoOnAllFiles s) →
        updated' = fm.updated ∪ S.getDependingFilePaths s fm.updated ∪
          S.getDependingFilePaths s fm.removed →
        f = indexFiles S E s →
        (newEvents p q).filter Event.isGetDependingFilePaths =
            [Event.getDependingFilePaths fm.updated, Event.getDependingFilePaths fm.removed] ∧
          f.updatedFilePaths = updated' ∧ f.removedFilePaths = fm.removed ∧
          f.addedFilePaths = fm.added ∧
          f.filesToClean = setToVector fm.removed ++ setToVector updated' ∧
          f.filesToParse = setToVector fm.added ++ setToVector updated' ∧
          f.filesToClean.toFinset = fm.removed ∪ updated' ∧
          f.filesToParse.toFinset = fm.added ∪ updated' ∧
          (¬ (f.filesToClean = [] ∧ f.filesToParse = []) →
            (newEvents p q).filter Event.isDispatch =
              [Event.dispatch (indexTaskTree storage p.fresh E.indexerThreadCount
                f.filesToClean f.filesToParse)]) := by
  obtain ⟨q, hq, -, -, -, -, hlog⟩ := buildIndex_spec S E p storage h
  refine ⟨q, hq, ?_⟩
  intro s fm updated' f hs hfm hup hf
  subst hs
  subst hfm
  subst hup
  subst hf
  rw [newEvents_of_log_eq p q _ hlog]
  refine ⟨?_, rfl, rfl, rfl, rfl, rfl, ?_, ?_, ?_⟩
  · by_cases hc :
      (indexFiles S E (S.setProjectSettingsText E.settingsText p.store)).filesToClean = [] ∧
      (indexFiles S E (S.setProjectSettingsText E.settingsText p.store)).filesToParse = []
    · simp [hc, List.filter, Event.isGetDependingFilePaths]
    · simp [hc, List.filter, Event.isGetDependingFilePaths]
  · simp [indexFiles, utility_append, setToVector_toFinset]
  · simp [indexFiles, utility_append, setToVector_toFinset]
  · intro hc
    simp [hc, List.filter, Event.isDispatch]

/-- C3, run on the scenario of the specification, with A, B, C, D numbered 0, 1, 2, 3:
added = {C}, removed = {A}, updated = {B}, and D the one dependent of B. Then
`filesToClean` is {A, B, D} and `filesToParse` is {C, B, D}. -/
theorem C3_buildIndex_file_sets_witness :
    (indexFiles demoOps (demoEnv true false 1 2 {2} {1} {0})
        ⟨false, false, "new", [(1, 3)]⟩).filesToClean.toFinset = {0, 1, 3} ∧
      (indexFiles demoOps (demoEnv true false 1 2 {2} {1} {0})
        ⟨false, false, "new", [(1, 3)]⟩).filesToParse.toFinset = {2, 1, 3} := by
  obtain ⟨_, _, hq⟩ := C3_buildIndex_file_sets demoOps (demoEnv true false 1 2 {2} {1} {0})
    (demoProject PROJECT_STATE_LOADED (some 0) ⟨false, false, "old", [(1, 3)]⟩) 0 rfl
  obtain ⟨-, -, -, -, -, -, hc, hp, -⟩ := hq _ _ _ _ rfl rfl rfl rfl
  exact ⟨hc.trans (by decide), hp.trans (by decide)⟩

/-- C5 fails as stated: with added = {2}, updated = {1}, removed = {0} (pairwise disjoint)
and a store that reports the removed file 0 and the added file 2 as dependents of file 1,
the removed file 0 is in `filesToParse` and the added file 2 is in `filesToClean`. -/
theorem C5_counterexample :
    (Disjoint ({2} : Finset Nat) {1} ∧ Disjoint ({2} : Finset Nat) {0} ∧
        Disjoint ({1} : Finset Nat) {0}) ∧
      (0 ∈ ({0} : Finset Nat) ∧
        0 ∈ (indexFiles demoOps (demoEnv true false 1 2 {2} {1} {0})
          ⟨false, false, "new", [(1, 0), (1, 2)]⟩).filesToParse) ∧
      (2 ∈ ({2} : Finset Nat) ∧
        2 ∈ (indexFiles demoOps (demoEnv true false 1 2 {2} {1} {0})
          ⟨false, false, "new", [(1, 0), (1, 2)]⟩).filesToClean) := by
  refine ⟨by decide, ⟨by decide, ?_⟩, ⟨by decide, ?_⟩⟩
  · simp only [indexFiles, List.mem_append, mem_setToVector, utility_append]
    decide
  · simp only [indexFiles, List.mem_append, mem_setToVector, utility_append]
    decide

/-- C5, amended: for pairwise disjoint added, updated and removed sets and any reply of the
dependency query, a removed file is in `filesToParse` exactly when the store reported it as
a dependent, and an added file is in `filesToClean` exactly when the store reported it as a
dependent. -/
theorem C5_removed_parsed_only_as_dependent [LinearOrder Path] (S : StorageOps σ ι Path)
    (E : Environment ι Path) (s : σ)
    (hau : Disjoint (E.fetchFilePaths (S.getInfoOnAllFiles s)).added
      (E.fetchFilePaths (S.getInfoOnAllFiles s)).updated)
    (har : Disjoint (E.fetchFilePaths (S.getInfoOnAllFiles s)).added
      (E.fetchFilePaths (S.getInfoOnAllFiles s)).removed)
    (hur : Disjoint (E.fetchFilePaths (S.getInfoOnAllFiles s)).updated
      (E.fetchFilePaths (S.getInfoOnAllFiles s)).removed) :
    (∀ x ∈ (E.fetchFilePaths (S.getInfoOnAllFiles s)).removed,
        x ∈ (indexFiles S E s).filesToParse ↔
          x ∈ S.getDependingFilePaths s (E.fetchFilePaths (S.getInfoOnAllFiles s)).updated ∪
            S.getDependingFilePaths s (E.fetchFilePaths (S.getInfoOnAllFiles s)).removed) ∧
      (∀ x ∈ (E.fetchFilePaths (S.getInfoOnAllFiles s)).added,
        x ∈ (indexFiles S E s).filesToClean ↔
          x ∈ S.getDependingFilePaths s (E.fetchFilePaths (S.getInfoOnAllFiles s)).updated ∪
            S.getDependingFilePaths s (E.fetchFilePaths (S.getInfoOnAllFiles s)).removed) := by
  constructor
  · intro x hx
    have h1 : x ∉ (E.fetchFilePaths (S.getInfoOnAllFiles s)).added :=
      fun hx' => (Finset.disjoint_left.mp har) hx' hx
    have h2 : x ∉ (E.fetchFilePaths (S.getInfoOnAllFiles s)).updated :=
      fun hx' => (Finset.disjoint_left.mp hur) hx' hx
    simp [indexFiles, utility_append, mem_setToVector, h1, h2]
  · intro x hx
    have h1 : x ∉ (E.fetchFilePaths (S.getInfoOnAllFiles s)).removed :=
      fun hx' => (Finset.disjoint_left.mp har) hx hx'
    have h2 : x ∉ (E.fetchFilePaths (S.getInfoOnAllFiles s)).updated :=
      fun hx' => (Finset.disjoint_left.mp hau) hx hx'
    simp [indexFiles, utility_append, mem_setToVector, h1, h2]

/-- C5 amended, run on the scenario of the specification (D = 3 the one dependent of B = 1):
the removed file 0 is not parsed and the added file 2 is not cleaned. -/
theorem C5_removed_parsed_only_as_dependent_witness :
    0 ∉ (indexFiles demoOps (demoEnv true false 1 2 {2} {1} {0})
        ⟨false, false, "new", [(1, 3)]⟩).filesToParse ∧
      2 ∉ (indexFiles demoOps (demoEnv true false 1 2 {2} {1} {0})
        ⟨false, false, "new", [(1, 3)]⟩).filesToClean := by
  have h := C5_removed_parsed_only_as_dependent demoOps (demoEnv true false 1 2 {2} {1} {0})
    ⟨false, false, "new", [(1, 3)]⟩ (by decide) (by decide) (by decide)
  exact ⟨fun hx => absurd ((h.1 0 (by decide)).mp hx) (by decide),
    fun hx => absurd ((h.2 2 (by decide)).mp hx) (by decide)⟩

/-! ### `load` -/

/-- C8: when the reload succeeds, the store is not empty and reports an incompatible version,
and the user, asked whether to reindex, picks anything but the first option, then `load`
returns with state `OUTVERSIONED` and no storage handle; the store content is untouched, and
the calls made are exactly: delimiter, storage creation, `setSubject`, `updateFileManager`,
the status message, the dialog, and the release of the handle. No `clear`, no index build. -/
theorem C8_load_outversioned_declined [LinearOrder Path] (S : StorageOps σ ι Path)
    (E : Environment ι Path) (p : Project σ Path)
    (hreload : E.reload p.reloads = true)
    (hempty : S.isEmpty p.store = false) (hinc : S.isIncompatible p.store = true)
    (hgui : E.hasGUI = true) (htrial : E.isTrial = false)
    (hno : E.handleDialog outversionedQuestion dialogOptions ≠ 0) :
    ∃ q, load S E p = some q ∧ q.m_state = PROJECT_STATE_OUTVERSIONED ∧ q.m_storage = none ∧
      q.store = p.store ∧
      newEvents p q =
        [Event.setDelimiter, Event.newStorage p.fresh, Event.setSubject p.fresh,
         Event.updateFileManager, Event.MessageStatus "Can't load project",
         Event.handleDialog outversionedQuestion dialogOptions, Event.resetStorage] ∧
      (newEvents p q).filter Event.isClear = [] ∧
      (newEvents p q).filter Event.isBuildIndex = [] ∧
      (newEvents p q).filter Event.isDispatch = [] := by
  have hload : load S E p = some
      { m_state := PROJECT_STATE_OUTVERSIONED, m_storage := none, store := p.store,
        reloads := p.reloads + 1, fresh := p.fresh + 1,
        log := p.log ++
          [Event.setDelimiter, Event.newStorage p.fresh, Event.setSubject p.fresh,
           Event.updateFileManager, Event.MessageStatus "Can't load project",
           Event.handleDialog outversionedQuestion dialogOptions, Event.resetStorage] } := by
    simp [load, hreload, loadOpen, Project.emit, Project.makeStorage, hempty, hinc, loadSwitch,
      hgui, htrial, hno]
  refine ⟨_, hload, rfl, rfl, rfl, ?_⟩
  rw [newEvents_of_log_eq p _ _ rfl]
  simp [List.filter, Event.isClear, Event.isBuildIndex, Event.isDispatch]

/-- C8, run on an incompatible store with a user who answers "No" (option 1). -/
theorem C8_load_outversioned_declined_witness :
    ∃ q, load demoOps (demoEnv true true 1 2 ∅ ∅ ∅)
        (Project.new ⟨false, true, "old", []⟩) = some q ∧
      q.m_state = PROJECT_STATE_OUTVERSIONED ∧ q.m_storage = none := by
  obtain ⟨q, hq, hs, hm, -⟩ := C8_load_outversioned_declined demoOps
    (demoEnv true true 1 2 ∅ ∅ ∅) (Project.new ⟨false, true, "old", []⟩)
    rfl rfl rfl rfl rfl (by decide)
  exact ⟨q, hq, hs, hm⟩

/-- C9: when the reload succeeds and the store is classified `OUTDATED` (not empty, not
incompatible, settings text differs), and the reindex is declined (no dialog can be shown,
or the user picks anything but the first option), then `load` returns with state `OUTDATED`
and the storage handle kept; the store is finalized once and otherwise untouched, exactly
one finished message (0, 0, 0, true) is sent, and there is no `clear`, no
`setProjectSettingsText`, no index build and no dispatch. -/
theorem C9_load_outdated_declined [LinearOrder Path] (S : StorageOps σ ι Path)
    (E : Environment ι Path) (p : Project σ Path)
    (hreload : E.reload p.reloads = true)
    (hempty : S.isEmpty p.store = false) (hinc : S.isIncompatible p.store = false)
    (htext : E.settingsText ≠ S.getProjectSettingsText p.store)
    (hno : (E.hasGUI && !E.isTrial) = false ∨
      E.handleDialog outdatedQuestion dialogOptions ≠ 0) :
    ∃ q, load S E p = some q ∧ q.m_state = PROJECT_STATE_OUTDATED ∧
      q.m_storage = some p.fresh ∧ q.store = S.finishParsing p.store ∧
      (newEvents p q).filter Event.isFinishParsing = [Event.finishParsing] ∧
      (newEvents p q).filter Event.isMessageFinishedParsing =
        [Event.MessageFinishedParsing 0 0 0 true] ∧
      (newEvents p q).filter Event.isClear = [] ∧
      (newEvents p q).filter Event.isSetProjectSettingsText = [] ∧
      (newEvents p q).filter Event.isBuildIndex = [] ∧
      (newEvents p q).filter Event.isDispatch = [] := by
  by_cases hask : (E.hasGUI && !E.isTrial) = true
  · have hans : E.handleDialog outdatedQuestion dialogOptions ≠ 0 := by
      rcases hno with h | h
      · rw [hask] at h
        exact absurd h (by decide)
      · exact h
    have hload : load S E p = some
        { m_state := PROJECT_STATE_OUTDATED, m_storage := some p.fresh,
          store := S.finishParsing p.store, reloads := p.reloads + 1, fresh := p.fresh + 1,
          log := p.log ++
            [Event.setDelimiter, Event.newStorage p.fresh, Event.setSubject p.fresh,
             Event.updateFileManager, Event.handleDialog outdatedQuestion dialogOptions,
             Event.finishParsing, Event.MessageFinishedParsing 0 0 0 true] } := by
      simp only [Bool.and_eq_true, Bool.not_eq_true', ] at hask
      simp [load, hreload, loadOpen, Project.emit, Project.makeStorage, hempty, hinc, htext,
        loadSwitch, loadFinish, hask.1, hask.2, hans]
    refine ⟨_, hload, rfl, rfl, rfl, ?_⟩
    rw [newEvents_of_log_eq p _ _ rfl]
    simp [List.filter, Event.isClear, Event.isBuildIndex, Event.isDispatch,
      Event.isFinishParsing, Event.isMessageFinishedParsing, Event.isSetProjectSettingsText]
  · have hask' : (E.hasGUI && !E.isTrial) = false := by simpa using hask
    have hload : load S E p = some
        { m_state := PROJECT_STATE_OUTDATED, m_storage := some p.fresh,
          store := S.finishParsing p.store, reloads := p.reloads + 1, fresh := p.fresh + 1,
          log := p.log ++
            [Event.setDelimiter, Event.newStorage p.fresh, Event.setSubject p.fresh,
             Event.updateFileManager,
             Event.finishParsing, Event.MessageFinishedParsing 0 0 0 true] } := by
      simp [load, hreload, loadOpen, Project.emit, Project.makeStorage, hempty, hinc, htext,
        loadSwitch, loadFinish, hask']
    refine ⟨_, hload, rfl, rfl, rfl, ?_⟩
    rw [newEvents_of_log_eq p _ _ rfl]
    simp [List.filter, Event.isClear, Event.isBuildIndex, Event.isDispatch,
      Event.isFinishParsing, Event.isMessageFinishedParsing, Event.isSetProjectSettingsText]

/-- C9, run on a store with an old settings text and a user who answers "No" (option 1). -/
theorem C9_load_outdated_declined_witness :
    ∃ q, load demoOps (demoEnv true true 1 2 ∅ ∅ ∅)
        (Project.new ⟨false, false, "old", []⟩) = some q ∧
      q.m_state = PROJECT_STATE_OUTDATED ∧ q.store = ⟨false, false, "old", []⟩ := by
  obtain ⟨q, hq, hs, -, hst, -⟩ := C9_load_outdated_declined demoOps
    (demoEnv true true 1 2 ∅ ∅ ∅) (Project.new ⟨false, false, "old", []⟩)
    rfl rfl rfl (by decide) (Or.inr (by decide))
  exact ⟨q, hq, hs, hst⟩

/-! ### `refresh` -/

/-- On a project with a storage handle `refresh` never looks at the result of the reload:
it returns with state `LOADED`, having called `updateFileManager` and run `buildIndex`. -/
theorem refresh_spec [LinearOrder Path] (S : StorageOps σ ι Path) (E : Environment ι Path)
    (p : Project σ Path) (storage : Nat) (h : p.m_storage = some storage) :
    ∃ q, refresh S E p = some q ∧ q.m_state = PROJECT_STATE_LOADED ∧
      q.m_storage = some storage ∧
      q.store = S.setProjectSettingsText E.settingsText p.store ∧
      (newEvents p q).filter Event.isBuildIndex = [Event.buildIndex] := by
  obtain ⟨q, hq, -, hm, hst, -, hlog⟩ :=
    buildIndex_spec S E ({ p with reloads := p.reloads + 1 }.emit Event.updateFileManager)
      storage h
  refine ⟨{ q with m_state := PROJECT_STATE_LOADED }, ?_, rfl, hm, hst, ?_⟩
  · simp [refresh, allowsRefresh, hq]
  · simp only [newEvents, hlog, Project.emit, List.append_assoc, List.drop_left]
    split <;> simp [List.filter, Event.isBuildIndex]

/-- C10 fails on the code: a project in state `OUTDATED` with a storage handle, one updated
file, and a settings reload that fails. `refresh` returns with state `LOADED`, not
`OUTDATED`, has run `buildIndex` and has overwritten the settings text of the store. -/
theorem C10_refresh_reload_fails_not_inert :
    (demoEnv false true 1 2 ∅ {1} ∅).reload 0 = false ∧
      ∃ q, refresh demoOps (demoEnv false true 1 2 ∅ {1} ∅)
          (demoProject PROJECT_STATE_OUTDATED (some 0) ⟨false, false, "old", []⟩) = some q ∧
        q.m_state = PROJECT_STATE_LOADED ∧
        q.m_state ≠ (demoProject PROJECT_STATE_OUTDATED (some 0)
          ⟨false, false, "old", []⟩).m_state ∧
        q.store = ⟨false, false, "new", []⟩ ∧
        (newEvents (demoProject PROJECT_STATE_OUTDATED (some 0) ⟨false, false, "old", []⟩)
          q).filter Event.isBuildIndex = [Event.buildIndex] := by
  refine ⟨rfl, ?_⟩
  obtain ⟨q, hq, hs, -, hst, hb⟩ := refresh_spec demoOps (demoEnv false true 1 2 ∅ {1} ∅)
    (demoProject PROJECT_STATE_OUTDATED (some 0) ⟨false, false, "old", []⟩) 0 rfl
  refine ⟨q, hq, hs, ?_, hst, hb⟩
  rw [hs]
  decide

/-! ### Execution traces -/

/-- Every event of an interleaving of `x :: xs` with `ys` comes from one of the two lists,
when this holds for the interleavings `r` of `xs`. -/
theorem mem_of_mem_interleaveAux {α : Type} (x : α) (xs : List α)
    (r : List α → List (List α))
    (hr : ∀ ys tr, tr ∈ r ys → ∀ e ∈ tr, e ∈ xs ∨ e ∈ ys) :
    ∀ ys tr, tr ∈ interleaveAux x xs r ys → ∀ e ∈ tr, e ∈ x :: xs ∨ e ∈ ys := by
  intro ys
  induction ys with
  | nil =>
    intro tr htr e he
    simp only [interleaveAux, List.mem_singleton] at htr
    subst htr
    exact Or.inl he
  | cons y ys ih =>
    intro tr htr e he
    simp only [interleaveAux, List.mem_append, List.mem_map] at htr
    rcases htr with ⟨tr', htr', rfl⟩ | ⟨tr', htr', rfl⟩
    · rcases List.mem_cons.mp he with rfl | he'
      · exact Or.inl (List.mem_cons_self _ _)
      · rcases hr _ _ htr' e he' with h | h
        · exact Or.inl (List.mem_cons_of_mem _ h)
        · exact Or.inr h
    · rcases List.mem_cons.mp he with rfl | he'
      · exact Or.inr (List.mem_cons_self _ _)
      · rcases ih _ htr' e he' with h | h
        · exact Or.inl h
        · exact Or.inr (List.mem_cons_of_mem _ h)

/-- Every event of an interleaving of two lists comes from one of them. -/
theorem mem_of_mem_interleave {α : Type} :
    ∀ (xs ys tr : List α), tr ∈ interleave xs ys → ∀ e ∈ tr, e ∈ xs ∨ e ∈ ys := by
  intro xs
  induction xs with
  | nil =>
    intro ys tr htr e he
    simp only [interleave, List.mem_singleton] at htr
    subst htr
    exact Or.inr he
  | cons x xs ih =>
    intro ys tr htr e he
    exact mem_of_mem_interleaveAux x xs (interleave xs) ih ys tr htr e he

/-- Two lists always have an interleaving. -/
theorem exists_mem_interleave {α : Type} :
    ∀ (xs ys : List α), ∃ tr, tr ∈ interleave xs ys := by
  intro xs
  induction xs with
  | nil => intro ys; exact ⟨ys, by simp [interleave]⟩
  | cons x xs ih =>
    intro ys
    cases ys with
    | nil => exact ⟨x :: xs, by simp [interleave, interleaveAux]⟩
    | cons y ys =>
      obtain ⟨tr, htr⟩ := ih (y :: ys)
      exact ⟨x :: tr, by
        simp only [interleave, interleaveAux, List.mem_append, List.mem_map]
        exact Or.inl ⟨tr, htr, rfl⟩⟩

/-- A parallel group of indexer tasks only produces events of indexer tasks. -/
theorem tracesParallel_indexers (storage mutex : Nat) (reg : FileRegister Path) :
    ∀ (n : Nat) (tr : List TraceEvent),
      tr ∈ tracesParallel (List.replicate n (TaskNode.IndexerTask storage mutex reg)) →
      ∀ e ∈ tr, e = TraceEvent.started TaskKind.indexer ∨
        e = TraceEvent.completed TaskKind.indexer := by
  intro n
  induction n with
  | zero =>
    intro tr htr e he
    simp only [List.replicate, tracesParallel, List.mem_singleton] at htr
    subst htr
    simp at he
  | succ n ih =>
    intro tr htr e he
    simp only [List.replicate, tracesParallel, traces, List.flatMap_cons, List.flatMap_nil,
      List.append_nil, List.mem_flatMap] at htr
    obtain ⟨tr', htr', hin⟩ := htr
    rcases mem_of_mem_interleave _ _ _ hin e he with h | h
    · simpa using h
    · exact ih tr' htr' e h

/-- A parallel group of indexer tasks has at least one trace. -/
theorem tracesParallel_indexers_nonempty (storage mutex : Nat) (reg : FileRegister Path) :
    ∀ (n : Nat), ∃ tr,
      tr ∈ tracesParallel (List.replicate n (TaskNode.IndexerTask storage mutex reg)) := by
  intro n
  induction n with
  | zero => exact ⟨[], by simp [tracesParallel]⟩
  | succ n ih =>
    obtain ⟨tr', htr'⟩ := ih
    obtain ⟨tr, htr⟩ := exists_mem_interleave
      [TraceEvent.started TaskKind.indexer, TraceEvent.completed TaskKind.indexer] tr'
    refine ⟨tr, ?_⟩
    simp only [List.replicate, tracesParallel, traces, List.flatMap_cons, List.flatMap_nil,
      List.append_nil, List.mem_flatMap]
    exact ⟨tr', htr', htr⟩

/-- The traces of the tree of `buildIndex`: the clean task starts and completes, then the
parse wrapper starts, the indexer tasks run, and the parse wrapper completes. -/
theorem traces_indexTaskTree (storage mutex : Nat) (n : Int) (clean parse : List Path)
    (tr : List TraceEvent) :
    tr ∈ traces (indexTaskTree storage mutex n clean parse) ↔
      ∃ tp, tp ∈ tracesParallel (List.replicate n.toNat (TaskNode.IndexerTask storage mutex
          ((FileRegister.mk (decide (n > 1)) []).setFilePaths parse))) ∧
        tr = TraceEvent.started TaskKind.clean :: TraceEvent.completed TaskKind.clean ::
          TraceEvent.started TaskKind.parseWrapper ::
            (tp ++ [TraceEvent.completed TaskKind.parseWrapper]) := by
  simp only [indexTaskTree, traces, tracesSequential, List.flatMap_cons, List.flatMap_nil,
    List.append_nil, List.map_map, List.mem_map, Function.comp, List.map_cons, List.map_nil,
    List.mem_flatMap, List.mem_singleton]
  constructor
  · rintro ⟨a, ⟨b, ⟨tp, htp, rfl⟩, rfl⟩, rfl⟩
    exact ⟨tp, htp, by simp⟩
  · rintro ⟨tp, htp, rfl⟩
    exact ⟨_, ⟨_, ⟨tp, htp, rfl⟩, rfl⟩, by simp⟩

/-- The tree `buildIndex` dispatches is the one built from its two vectors. -/
theorem dispatch_of_buildIndex [LinearOrder Path] (S : StorageOps σ ι Path)
    (E : Environment ι Path) (p q : Project σ Path) (t : TaskNode Path)
    (hq : buildIndex S E p = some q) (ht : Event.dispatch t ∈ newEvents p q) :
    ∃ storage, p.m_storage = some storage ∧
      t = indexTaskTree storage p.fresh E.indexerThreadCount
        (indexFiles S E (S.setProjectSettingsText E.settingsText p.store)).filesToClean
        (indexFiles S E (S.setProjectSettingsText E.settingsText p.store)).filesToParse := by
  cases hm : p.m_storage with
  | none => simp [buildIndex, hm] at hq
  | some storage =>
    obtain ⟨q', hq', -, -, -, -, hlog⟩ := buildIndex_spec S E p storage hm
    rw [hq] at hq'
    cases hq'
    rw [newEvents_of_log_eq p q _ hlog] at ht
    refine ⟨storage, rfl, ?_⟩
    split at ht
    · simp at ht
    · simpa using ht

/-- C4: every task tree that `buildIndex` dispatches is a sequential group whose first child
is the clean task and whose second child is the parse wrapper around the parallel group of
the indexer tasks; the tree has execution traces, and in every one of them the clean task
completes, and each completion of the clean task comes before each start of an indexer
task. -/
theorem C4_clean_completes_before_indexers [LinearOrder Path] (S : StorageOps σ ι Path)
    (E : Environment ι Path) (p q : Project σ Path) (t : TaskNode Path)
    (hq : buildIndex S E p = some q) (ht : Event.dispatch t ∈ newEvents p q) :
    (∃ storage mutex filesToClean reg,
        t = TaskNode.TaskGroupSequential
          [TaskNode.TaskCleanStorage storage filesToClean,
           TaskNode.TaskParseWrapper storage reg (TaskNode.TaskGroupParallel
             (List.replicate E.indexerThreadCount.toNat
               (TaskNode.IndexerTask storage mutex reg)))]) ∧
      (∃ tr, tr ∈ traces t) ∧
      ∀ tr ∈ traces t,
        TraceEvent.completed TaskKind.clean ∈ tr ∧
        ∀ i j : Nat, tr[i]? = some (TraceEvent.completed TaskKind.clean) →
          tr[j]? = some (TraceEvent.started TaskKind.indexer) → i < j := by
  obtain ⟨storage, -, rfl⟩ := dispatch_of_buildIndex S E p q t hq ht
  refine ⟨⟨storage, p.fresh, _, _, rfl⟩, ?_, ?_⟩
  · obtain ⟨tp, htp⟩ := tracesParallel_indexers_nonempty storage p.fresh
      ((FileRegister.mk (decide (E.indexerThreadCount > 1)) []).setFilePaths
        (indexFiles S E (S.setProjectSettingsText E.settingsText p.store)).filesToParse)
      E.indexerThreadCount.toNat
    exact ⟨_, (traces_indexTaskTree storage p.fresh E.indexerThreadCount _ _ _).mpr
      ⟨tp, htp, rfl⟩⟩
  · intro tr htr
    obtain ⟨tp, htp, rfl⟩ := (traces_indexTaskTree storage p.fresh E.indexerThreadCount
      _ _ tr).mp htr
    have hidx := tracesParallel_indexers storage p.fresh _ _ tp htp
    refine ⟨by simp, ?_⟩
    intro i j hi hj
    rcases i with _ | _ | i
    · simp at hi
    · rcases j with _ | _ | j
      · simp at hj
      · simp at hj
      · omega
    · exfalso
      have hmem : TraceEvent.completed TaskKind.clean ∈
          TraceEvent.started TaskKind.parseWrapper ::
            (tp ++ [TraceEvent.completed TaskKind.parseWrapper]) :=
        List.getElem?_mem (by simpa using hi)
      simp only [List.mem_cons, List.mem_append, List.mem_singleton, reduceCtorEq,
        TraceEvent.completed.injEq, false_or, or_false, List.not_mem_nil] at hmem
      rcases hidx _ hmem with h | h
      · simp at h
      · simp at h

/-- C4, run with one updated file and two indexer threads, on the trace in which the two
indexer tasks run one after the other: it is a trace of the dispatched tree, the clean task
completes in it (at index 1), and that is before the start of an indexer task at index 3. -/
theorem C4_clean_completes_before_indexers_witness :
    [TraceEvent.started TaskKind.clean, TraceEvent.completed TaskKind.clean,
      TraceEvent.started TaskKind.parseWrapper,
      TraceEvent.started TaskKind.indexer, TraceEvent.completed TaskKind.indexer,
      TraceEvent.started TaskKind.indexer, TraceEvent.completed TaskKind.indexer,
      TraceEvent.completed TaskKind.parseWrapper] ∈
        traces (indexTaskTree 0 1 2
          (indexFiles demoOps (demoEnv true false 1 2 ∅ {1} ∅)
            ⟨false, false, "new", []⟩).filesToClean
          (indexFiles demoOps (demoEnv true false 1 2 ∅ {1} ∅)
            ⟨false, false, "new", []⟩).filesToParse) ∧
      (1 : Nat) < 3 := by
  obtain ⟨q, hq, -, -, -, -, hlog⟩ := buildIndex_spec demoOps
    (demoEnv true false 1 2 ∅ {1} ∅)
    (demoProject PROJECT_STATE_LOADED (some 0) ⟨false, false, "old", []⟩) 0 rfl
  have hne : ¬ ((indexFiles demoOps (demoEnv true false 1 2 ∅ {1} ∅)
        (demoOps.setProjectSettingsText (demoEnv true false 1 2 ∅ {1} ∅).settingsText
          (demoProject PROJECT_STATE_LOADED (some 0)
            ⟨false, false, "old", []⟩).store)).filesToClean = [] ∧
      (indexFiles demoOps (demoEnv true false 1 2 ∅ {1} ∅)
        (demoOps.setProjectSettingsText (demoEnv true false 1 2 ∅ {1} ∅).settingsText
          (demoProject PROJECT_STATE_LOADED (some 0)
            ⟨false, false, "old", []⟩).store)).filesToParse = []) := by
    simp [indexFiles, setToVector, utility_append, demoEnv, demoOps, demoProject]
  rw [if_neg hne] at hlog
  have hall := (C4_clean_completes_before_indexers demoOps (demoEnv true false 1 2 ∅ {1} ∅)
    (demoProject PROJECT_STATE_LOADED (some 0) ⟨false, false, "old", []⟩) q
    (indexTaskTree 0 1 2
      (indexFiles demoOps (demoEnv true false 1 2 ∅ {1} ∅)
        ⟨false, false, "new", []⟩).filesToClean
      (indexFiles demoOps (demoEnv true false 1 2 ∅ {1} ∅)
        ⟨false, false, "new", []⟩).filesToParse) hq
    (by
      rw [newEvents_of_log_eq _ q _ hlog]
      exact List.mem_of_mem_getLast? rfl)).2.2
  have hmem : [TraceEvent.started TaskKind.clean, TraceEvent.completed TaskKind.clean,
      TraceEvent.started TaskKind.parseWrapper,
      TraceEvent.started TaskKind.indexer, TraceEvent.completed TaskKind.indexer,
      TraceEvent.started TaskKind.indexer, TraceEvent.completed TaskKind.indexer,
      TraceEvent.completed TaskKind.parseWrapper] ∈
        traces (indexTaskTree 0 1 2
          (indexFiles demoOps (demoEnv true false 1 2 ∅ {1} ∅)
            ⟨false, false, "new", []⟩).filesToClean
          (indexFiles demoOps (demoEnv true false 1 2 ∅ {1} ∅)
            ⟨false, false, "new", []⟩).filesToParse) := by
    decide
  exact ⟨hmem, (hall _ hmem).2 1 3 rfl rfl⟩

/-! ### The dispatched tree -/

/-- C11 fails as stated for a negative thread count: with `indexerThreadCount = -1` and one
updated file `buildIndex` dispatches a tree whose parallel group holds no indexer task, and
0 is not -1. -/
theorem C11_counterexample :
    ∃ q workers,
      buildIndex demoOps (demoEnv true false 1 (-1) ∅ {1} ∅)
        (demoProject PROJECT_STATE_LOADED (some 0) ⟨false, false, "old", []⟩) = some q ∧
      q.log.getLast? = some (Event.dispatch (TaskNode.TaskGroupSequential
        [TaskNode.TaskCleanStorage 0 [1],
         TaskNode.TaskParseWrapper 0 ⟨false, [1]⟩ (TaskNode.TaskGroupParallel workers)])) ∧
      workers = [] ∧ (workers.length : Int) ≠ -1 := by
  obtain ⟨q, hq, -, -, -, -, hlog⟩ := buildIndex_spec demoOps
    (demoEnv true false 1 (-1) ∅ {1} ∅)
    (demoProject PROJECT_STATE_LOADED (some 0) ⟨false, false, "old", []⟩) 0 rfl
  refine ⟨q, [], hq, ?_, rfl, by decide⟩
  rw [hlog]
  simp [indexFiles, setToVector, utility_append, demoEnv, demoOps, demoProject, indexTaskTree,
    FileRegister.setFilePaths]

/-- C11, amended: every tree `buildIndex` dispatches is a sequential group with exactly two
children, first the clean task carrying `filesToClean`, then the parse wrapper; the wrapper
holds one parallel group whose tasks are all the same indexer task, made with the storage
handle of the project, one mutex and the register that holds exactly `filesToParse`; the
group has max(n, 0) tasks for the configured thread count n, so exactly n when n is not
negative. -/
theorem C11_dispatched_tree_shape [LinearOrder Path] (S : StorageOps σ ι Path)
    (E : Environment ι Path) (p q : Project σ Path) (t : TaskNode Path)
    (hq : buildIndex S E p = some q) (ht : Event.dispatch t ∈ newEvents p q) :
    ∃ storage mutex reg workers,
      p.m_storage = some storage ∧
      t = TaskNode.TaskGroupSequential
        [TaskNode.TaskCleanStorage storage
           (indexFiles S E (S.setProjectSettingsText E.settingsText p.store)).filesToClean,
         TaskNode.TaskParseWrapper storage reg (TaskNode.TaskGroupParallel workers)] ∧
      reg.filePaths =
        (indexFiles S E (S.setProjectSettingsText E.settingsText p.store)).filesToParse ∧
      reg.randomizeOrder = decide (E.indexerThreadCount > 1) ∧
      (∀ w ∈ workers, w = TaskNode.IndexerTask storage mutex reg) ∧
      workers.length = E.indexerThreadCount.toNat ∧
      (0 ≤ E.indexerThreadCount → (workers.length : Int) = E.indexerThreadCount) := by
  obtain ⟨storage, hs, rfl⟩ := dispatch_of_buildIndex S E p q t hq ht
  refine ⟨storage, p.fresh, _, _, hs, rfl, rfl, rfl, ?_, ?_, ?_⟩
  · intro w hw
    exact List.eq_of_mem_replicate hw
  · simp
  · intro hn
    simp [Int.toNat_of_nonneg hn]

/-- C11 amended, run with one updated file and two threads: the dispatched tree has two
indexer tasks that share storage handle 0, mutex 1 and the register holding file 1. -/
theorem C11_dispatched_tree_shape_witness :
    ∃ q storage mutex reg workers,
      buildIndex demoOps (demoEnv true false 1 2 ∅ {1} ∅)
        (demoProject PROJECT_STATE_LOADED (some 0) ⟨false, false, "old", []⟩) = some q ∧
      q.log.getLast? = some (Event.dispatch (TaskNode.TaskGroupSequential
        [TaskNode.TaskCleanStorage storage [1],
         TaskNode.TaskParseWrapper storage reg (TaskNode.TaskGroupParallel workers)])) ∧
      (∀ w ∈ workers, w = TaskNode.IndexerTask storage mutex reg) ∧
      (workers.length : Int) = 2 := by
  obtain ⟨q, hq, -, -, -, -, hlog⟩ := buildIndex_spec demoOps
    (demoEnv true false 1 2 ∅ {1} ∅)
    (demoProject PROJECT_STATE_LOADED (some 0) ⟨false, false, "old", []⟩) 0 rfl
  have hne : ¬ ((indexFiles demoOps (demoEnv true false 1 2 ∅ {1} ∅)
        (demoOps.setProjectSettingsText (demoEnv true false 1 2 ∅ {1} ∅).settingsText
          (demoProject PROJECT_STATE_LOADED (some 0)
            ⟨false, false, "old", []⟩).store)).filesToClean = [] ∧
      (indexFiles demoOps (demoEnv true false 1 2 ∅ {1} ∅)
        (demoOps.setProjectSettingsText (demoEnv true false 1 2 ∅ {1} ∅).settingsText
          (demoProject PROJECT_STATE_LOADED (some 0)
            ⟨false, false, "old", []⟩).store)).filesToParse = []) := by
    simp [indexFiles, setToVector, utility_append, demoEnv, demoOps, demoProject]
  rw [if_neg hne] at hlog
  obtain ⟨storage, mutex, reg, workers, hs, ht, hreg, -, hw, -, hlen⟩ :=
    C11_dispatched_tree_shape demoOps (demoEnv true false 1 2 ∅ {1} ∅)
      (demoProject PROJECT_STATE_LOADED (some 0) ⟨false, false, "old", []⟩) q _ hq
      (by
        rw [newEvents_of_log_eq _ q _ hlog]
        exact List.mem_of_mem_getLast? rfl)
  refine ⟨q, storage, mutex, reg, workers, hq, ?_, hw, hlen (by decide)⟩
  rw [hlog, ht]
  simp [indexFiles, setToVector, utility_append, demoEnv, demoOps, demoProject]

/-- C12 fails as stated: with `indexerThreadCount = 0` and one updated file `buildIndex`
dispatches a tree whose parallel group holds no indexer task. -/
theorem C12_counterexample :
    ∃ q,
      buildIndex demoOps (demoEnv true false 1 0 ∅ {1} ∅)
        (demoProject PROJECT_STATE_LOADED (some 0) ⟨false, false, "old", []⟩) = some q ∧
      q.log.getLast? = some (Event.dispatch (TaskNode.TaskGroupSequential
        [TaskNode.TaskCleanStorage 0 [1],
         TaskNode.TaskParseWrapper 0 ⟨false, [1]⟩ (TaskNode.TaskGroupParallel [])])) := by
  obtain ⟨q, hq, -, -, -, -, hlog⟩ := buildIndex_spec demoOps
    (demoEnv true false 1 0 ∅ {1} ∅)
    (demoProject PROJECT_STATE_LOADED (some 0) ⟨false, false, "old", []⟩) 0 rfl
  refine ⟨q, hq, ?_⟩
  rw [hlog]
  simp [indexFiles, setToVector, utility_append, demoEnv, demoOps, demoProject, indexTaskTree,
    FileRegister.setFilePaths]

/-- C12, amended: in every tree `buildIndex` dispatches, the parallel group holds at least
one indexer task exactly when the configured thread count is at least 1; for a count of 0
or below the group is empty. -/
theorem C12_workers_iff_positive_count [LinearOrder Path] (S : StorageOps σ ι Path)
    (E : Environment ι Path) (p q : Project σ Path) (t : TaskNode Path)
    (hq : buildIndex S E p = some q) (ht : Event.dispatch t ∈ newEvents p q) :
    ∃ storage filesToClean reg workers,
      t = TaskNode.TaskGroupSequential
        [TaskNode.TaskCleanStorage storage filesToClean,
         TaskNode.TaskParseWrapper storage reg (TaskNode.TaskGroupParallel workers)] ∧
      (1 ≤ workers.length ↔ 1 ≤ E.indexerThreadCount) ∧
      (E.indexerThreadCount ≤ 0 → workers = []) := by
  obtain ⟨storage, -, rfl⟩ := dispatch_of_buildIndex S E p q t hq ht
  refine ⟨storage, _, _, _, rfl, ?_, ?_⟩
  · simp only [List.length_replicate]
    omega
  · intro hn
    have h0 : E.indexerThreadCount.toNat = 0 := by omega
    simp [h0]

/-- C12 amended, run with one updated file and two threads: the parallel group of the
dispatched tree is not empty. -/
theorem C12_workers_iff_positive_count_witness :
    ∃ q storage filesToClean reg workers,
      buildIndex demoOps (demoEnv true false 1 2 ∅ {1} ∅)
        (demoProject PROJECT_STATE_LOADED (some 0) ⟨false, false, "old", []⟩) = some q ∧
      q.log.getLast? = some (Event.dispatch (TaskNode.TaskGroupSequential
        [TaskNode.TaskCleanStorage storage filesToClean,
         TaskNode.TaskParseWrapper storage reg (TaskNode.TaskGroupParallel workers)])) ∧
      1 ≤ workers.length := by
  obtain ⟨q, hq, -, -, -, -, hlog⟩ := buildIndex_spec demoOps
    (demoEnv true false 1 2 ∅ {1} ∅)
    (demoProject PROJECT_STATE_LOADED (some 0) ⟨false, false, "old", []⟩) 0 rfl
  have hne : ¬ ((indexFiles demoOps (demoEnv true false 1 2 ∅ {1} ∅)
        (demoOps.setProjectSettingsText (demoEnv true false 1 2 ∅ {1} ∅).settingsText
          (demoProject PROJECT_STATE_LOADED (some 0)
            ⟨false, false, "old", []⟩).store)).filesToClean = [] ∧
      (indexFiles demoOps (demoEnv true false 1 2 ∅ {1} ∅)
        (demoOps.setProjectSettingsText (demoEnv true false 1 2 ∅ {1} ∅).settingsText
          (demoProject PROJECT_STATE_LOADED (some 0)
            ⟨false, false, "old", []⟩).store)).filesToParse = []) := by
    simp [indexFiles, setToVector, utility_append, demoEnv, demoOps, demoProject]
  rw [if_neg hne] at hlog
  obtain ⟨storage, filesToClean, reg, workers, ht, hw, -⟩ :=
    C12_workers_iff_positive_count demoOps (demoEnv true false 1 2 ∅ {1} ∅)
      (demoProject PROJECT_STATE_LOADED (some 0) ⟨false, false, "old", []⟩) q _ hq
      (by
        rw [newEvents_of_log_eq _ q _ hlog]
        exact List.mem_of_mem_getLast? rfl)
  refine ⟨q, storage, filesToClean, reg, workers, hq, ?_, hw.mpr (by decide)⟩
  rw [hlog, ← ht]
  simp

/-! ### `clearStorage` and `forceRefresh` -/

/-- What `clearStorage` does: a handle is created if there was none, the store is cleared
and the state is `EMPTY`. -/
theorem clearStorage_spec (S : StorageOps σ ι Path) (p : Project σ Path) :
    (clearStorage S p).m_state = PROJECT_STATE_EMPTY ∧
      (clearStorage S p).store = S.clear p.store ∧
      (clearStorage S p).m_storage = some (p.m_storage.getD p.fresh) ∧
      (clearStorage S p).reloads = p.reloads ∧
      (clearStorage S p).log =
        p.log ++ ((if p.m_storage.isNone then [Event.newStorage p.fresh] else []) ++
          [Event.clear]) := by
  unfold clearStorage Project.makeStorage
  cases hs : p.m_storage <;> simp [hs]

/-- C13: if the `clear` of the store is idempotent, then so is `clearStorage`: a second call
leaves the state (`EMPTY`), the storage handle (present) and the store content (cleared) as
they were after the first call, whether or not a handle existed at the start. -/
theorem C13_clearStorage_idempotent (S : StorageOps σ ι Path) (p : Project σ Path)
    (hclear : ∀ s, S.clear (S.clear s) = S.clear s) :
    (clearStorage S (clearStorage S p)).m_state = (clearStorage S p).m_state ∧
      (clearStorage S p).m_state = PROJECT_STATE_EMPTY ∧
      (clearStorage S (clearStorage S p)).m_storage = (clearStorage S p).m_storage ∧
      (clearStorage S p).m_storage.isSome = true ∧
      (clearStorage S (clearStorage S p)).store = (clearStorage S p).store ∧
      (clearStorage S p).store = S.clear p.store := by
  obtain ⟨h1, h2, h3, -, -⟩ := clearStorage_spec S p
  obtain ⟨k1, k2, k3, -, -⟩ := clearStorage_spec S (clearStorage S p)
  refine ⟨by rw [k1, h1], h1, ?_, by simp [h3], ?_, h2⟩
  · rw [k3, h3]
    simp
  · rw [k2, h2, hclear]

/-- C13, run on a fresh project (no storage handle) over a store that is not empty. -/
theorem C13_clearStorage_idempotent_witness :
    (clearStorage demoOps (clearStorage demoOps
        (Project.new ⟨false, false, "old", [(1, 3)]⟩ : Project DemoStore Nat))).store =
      (clearStorage demoOps
        (Project.new ⟨false, false, "old", [(1, 3)]⟩ : Project DemoStore Nat)).store :=
  (C13_clearStorage_idempotent demoOps
    (Project.new ⟨false, false, "old", [(1, 3)]⟩ : Project DemoStore Nat)
    (fun _ => rfl)).2.2.2.2.1

/-- On a project with a storage handle `buildIndex` returns; it adds to the log its own
entry and no `clear`. -/
theorem buildIndex_log [LinearOrder Path] (S : StorageOps σ ι Path) (E : Environment ι Path)
    (p : Project σ Path) (storage : Nat) (h : p.m_storage = some storage) :
    ∃ q l, buildIndex S E p = some q ∧ q.m_state = p.m_state ∧
      q.m_storage = some storage ∧
      q.store = S.setProjectSettingsText E.settingsText p.store ∧
      q.log = p.log ++ l ∧
      l.filter Event.isBuildIndex = [Event.buildIndex] ∧
      l.filter Event.isClear = [] := by
  obtain ⟨q, hq, hs, hm, hst, -, hlog⟩ := buildIndex_spec S E p storage h
  refine ⟨q, _, hq, hs, hm, hst, hlog, ?_, ?_⟩
  · split <;> simp [List.filter, Event.isBuildIndex]
  · split <;> simp [List.filter, Event.isClear]

/-- On a project with a storage handle `refresh` returns with state `LOADED`; it adds to the
log one entry into `buildIndex` and no `clear`. -/
theorem refresh_log [LinearOrder Path] (S : StorageOps σ ι Path) (E : Environment ι Path)
    (p : Project σ Path) (storage : Nat) (h : p.m_storage = some storage) :
    ∃ q l, refresh S E p = some q ∧ q.m_state = PROJECT_STATE_LOADED ∧
      q.m_storage = some storage ∧
      q.store = S.setProjectSettingsText E.settingsText p.store ∧
      q.log = p.log ++ l ∧
      l.filter Event.isBuildIndex = [Event.buildIndex] ∧
      l.filter Event.isClear = [] := by
  obtain ⟨q, l, hq, -, hm, hst, hlog, hb, hc⟩ :=
    buildIndex_log S E ({ p with reloads := p.reloads + 1 }.emit Event.updateFileManager)
      storage h
  refine ⟨{ q with m_state := PROJECT_STATE_LOADED }, Event.updateFileManager :: l, ?_, rfl,
    hm, hst, ?_, ?_, ?_⟩
  · simp [refresh, allowsRefresh, hq]
  · simp only [hlog, Project.emit, List.append_assoc, List.singleton_append]
  · simpa [List.filter, Event.isBuildIndex] using hb
  · simpa [List.filter, Event.isClear] using hc

/-- Whatever the project, `forceRefresh` returns: `clearStorage` leaves a storage handle, and
`refresh` runs `buildIndex` with it. The state is `LOADED` at the end, and the log gained
one `clear` and one entry into `buildIndex`. -/
theorem forceRefresh_spec [LinearOrder Path] (S : StorageOps σ ι Path)
    (E : Environment ι Path) (p : Project σ Path) :
    ∃ q l, forceRefresh S E p = some q ∧ q.m_state = PROJECT_STATE_LOADED ∧
      q.m_storage = some (p.m_storage.getD p.fresh) ∧
      q.store = S.setProjectSettingsText E.settingsText (S.clear p.store) ∧
      q.log = p.log ++ l ∧
      l.filter Event.isBuildIndex = [Event.buildIndex] ∧
      l.filter Event.isClear = [Event.clear] := by
  obtain ⟨-, h2, h3, -, h5⟩ := clearStorage_spec S p
  obtain ⟨q, l, hq, hs, hm, hst, hlog, hb, hc⟩ := refresh_log S E (clearStorage S p) _ h3
  refine ⟨q, ((if p.m_storage.isNone then [Event.newStorage p.fresh] else []) ++
    [Event.clear]) ++ l, ?_, hs, hm, by rw [hst, h2], ?_, ?_, ?_⟩
  · simpa [forceRefresh, allowsRefresh] using hq
  · rw [hlog, h5, List.append_assoc]
  · cases hp : p.m_storage <;>
      simp [List.filter_append, hb, List.filter, Event.isBuildIndex]
  · cases hp : p.m_storage <;>
      simp [List.filter_append, hc, List.filter, Event.isClear]

/-- C20: whatever the project is (so also in every state reachable through `load`, `refresh`,
`forceRefresh` and `clearStorage`, with or without a storage handle), `forceRefresh` runs
`buildIndex` on a project that has a storage handle, so the null dereference of
`buildIndex` is not reached; `forceRefresh` returns, with state `LOADED` and that handle. -/
theorem C20_forceRefresh_builds_with_handle [LinearOrder Path] (S : StorageOps σ ι Path)
    (E : Environment ι Path) (p : Project σ Path) :
    ∃ q storage,
      ({ clearStorage S p with reloads := (clearStorage S p).reloads + 1 }.emit
        Event.updateFileManager).m_storage = some storage ∧
      forceRefresh S E p =
        (buildIndex S E ({ clearStorage S p with reloads := (clearStorage S p).reloads + 1 }.emit
          Event.updateFileManager)).map (fun r => { r with m_state := PROJECT_STATE_LOADED }) ∧
      forceRefresh S E p = some q ∧ q.m_state = PROJECT_STATE_LOADED ∧
      q.m_storage = some storage := by
  obtain ⟨q, l, hq, hs, hm, -⟩ := forceRefresh_spec S E p
  obtain ⟨-, -, h3, -, -⟩ := clearStorage_spec S p
  refine ⟨q, _, h3, ?_, hq, hs, hm⟩
  simp only [forceRefresh, allowsRefresh, refresh, if_true]
  cases buildIndex S E ({ clearStorage S p with reloads := (clearStorage S p).reloads + 1 }.emit
    Event.updateFileManager) <;> rfl

/-! ### `load`, all cases -/

/-- After lines 118 to 140 of `load` the project has the new storage handle and its state is
not `NOT_LOADED`. -/
theorem loadOpen_spec (S : StorageOps σ ι Path) (E : Environment ι Path) (p : Project σ Path) :
    (loadOpen S E p).m_storage = some p.fresh ∧
      (loadOpen S E p).m_state ≠ PROJECT_STATE_NOT_LOADED := by
  unfold loadOpen Project.emit Project.makeStorage
  cases h1 : S.isEmpty p.store <;> cases h2 : S.isIncompatible p.store <;>
    by_cases h3 : E.settingsText = S.getProjectSettingsText p.store <;> simp [h1, h2, h3]

/-- When the reload succeeds, `load` is the `switch` run after lines 118 to 142, followed by
`forceRefresh` if `reparse` is set. -/
theorem load_of_reload [LinearOrder Path] (S : StorageOps σ ι Path) (E : Environment ι Path)
    (p : Project σ Path) (hreload : E.reload p.reloads = true) :
    load S E p =
      (loadSwitch S E
        ((loadOpen S E { p with reloads := p.reloads + 1 }).emit Event.updateFileManager)).bind
        (fun r => if r.2 then forceRefresh S E r.1 else some r.1) := by
  unfold load
  simp only [hreload, if_true]
  cases loadSwitch S E
    ((loadOpen S E { p with reloads := p.reloads + 1 }).emit Event.updateFileManager) with
  | none => rfl
  | some r => rfl

/-- On a project with a storage handle the `switch` of `load` returns, and it does not bring
the state back to `NOT_LOADED`. -/
theorem loadSwitch_total [LinearOrder Path] (S : StorageOps σ ι Path) (E : Environment ι Path)
    (p : Project σ Path) (storage : Nat) (h : p.m_storage = some storage)
    (hs : p.m_state ≠ PROJECT_STATE_NOT_LOADED) :
    ∃ r, loadSwitch S E p = some r ∧ r.1.m_state ≠ PROJECT_STATE_NOT_LOADED := by
  cases hst : p.m_state with
  | PROJECT_STATE_NOT_LOADED => exact absurd hst hs
  | PROJECT_STATE_EMPTY =>
    obtain ⟨q, hq, -⟩ := buildIndex_spec S E p storage h
    exact ⟨({ q with m_state := PROJECT_STATE_LOADED }, false),
      by simp [loadSwitch, hst, hq], by simp⟩
  | PROJECT_STATE_LOADED =>
    simp [loadSwitch, hst, loadFinish, h, Project.emit]
  | PROJECT_STATE_OUTDATED =>
    by_cases hask : (E.hasGUI && !E.isTrial) = true
    · simp only [Bool.and_eq_true, Bool.not_eq_true'] at hask
      simp [loadSwitch, hst, loadFinish, h, Project.emit, hask.1, hask.2]
    · have hask' : (E.hasGUI && !E.isTrial) = false := by simpa using hask
      simp [loadSwitch, hst, loadFinish, h, Project.emit, hask']
  | PROJECT_STATE_OUTVERSIONED =>
    by_cases hask : (E.hasGUI && !E.isTrial) = true
    · simp only [Bool.and_eq_true, Bool.not_eq_true'] at hask
      simp [loadSwitch, hst, Project.emit, hask.1, hask.2]
    · have hask' : (E.hasGUI && !E.isTrial) = false := by simpa using hask
      simp [loadSwitch, hst, Project.emit, hask']

/-- When the reload succeeds, `load` returns, with a state other than `NOT_LOADED`. -/
theorem load_total [LinearOrder Path] (S : StorageOps σ ι Path) (E : Environment ι Path)
    (p : Project σ Path) (hreload : E.reload p.reloads = true) :
    ∃ q, load S E p = some q ∧ q.m_state ≠ PROJECT_STATE_NOT_LOADED := by
  obtain ⟨hm, hs⟩ := loadOpen_spec S E { p with reloads := p.reloads + 1 }
  obtain ⟨r, hr, hrs⟩ := loadSwitch_total S E
    ((loadOpen S E { p with reloads := p.reloads + 1 }).emit Event.updateFileManager)
    p.fresh hm hs
  rw [load_of_reload S E p hreload, hr]
  cases h2 : r.2
  · exact ⟨r.1, by simp [h2], hrs⟩
  · obtain ⟨q, l, hq, hqs, -⟩ := forceRefresh_spec S E r.1
    exact ⟨q, by simp [h2, hq], by simp [hqs]⟩

/-- Each member function keeps the invariant: a storage handle is present only in a state
other than `NOT_LOADED`. -/
theorem Call_run_invariant [LinearOrder Path] (S : StorageOps σ ι Path)
    (E : Environment ι Path) (c : Call) (p q : Project σ Path)
    (hinv : p.m_storage.isSome = true → p.m_state ≠ PROJECT_STATE_NOT_LOADED)
    (hq : c.run S E p = some q) :
    q.m_storage.isSome = true → q.m_state ≠ PROJECT_STATE_NOT_LOADED := by
  intro hh
  cases c with
  | load =>
    by_cases hreload : E.reload p.reloads = true
    · obtain ⟨q', hq', hs⟩ := load_total S E p hreload
      simp only [Call.run, hq', Option.some.injEq] at hq
      subst hq
      exact hs
    · simp only [Call.run, load, hreload, Bool.false_eq_true, if_false,
        Option.some.injEq] at hq
      subst hq
      exact hinv hh
  | refresh =>
    cases hm : p.m_storage with
    | none => simp [Call.run, refresh, allowsRefresh, buildIndex, Project.emit, hm] at hq
    | some storage =>
      obtain ⟨q', l, hq', hs, -⟩ := refresh_log S E p storage hm
      simp only [Call.run, hq', Option.some.injEq] at hq
      subst hq
      simp [hs]
  | forceRefresh =>
    obtain ⟨q', l, hq', hs, -⟩ := forceRefresh_spec S E p
    simp only [Call.run, hq', Option.some.injEq] at hq
    subst hq
    simp [hs]
  | clearStorage =>
    simp only [Call.run, Option.some.injEq] at hq
    subst hq
    simp [(clearStorage_spec S p).1]

/-- A sequence of calls keeps the invariant, whatever happens to the store in between. -/
theorem runCalls_invariant [LinearOrder Path] (S : StorageOps σ ι Path) :
    ∀ (steps : List (Step σ ι Path)) (p q : Project σ Path),
      (p.m_storage.isSome = true → p.m_state ≠ PROJECT_STATE_NOT_LOADED) →
      runCalls S steps p = some q →
      q.m_storage.isSome = true → q.m_state ≠ PROJECT_STATE_NOT_LOADED := by
  intro steps
  induction steps with
  | nil =>
    intro p q hinv hq
    simp only [runCalls, Option.some.injEq] at hq
    subst hq
    exact hinv
  | cons step steps ih =>
    intro p q hinv hq
    simp only [runCalls] at hq
    cases hstep : step.call.run S step.env { p with store := step.storeChange p.store } with
    | none => simp [hstep] at hq
    | some p' =>
      simp only [hstep] at hq
      exact ih p' q (Call_run_invariant S step.env step.call
        { p with store := step.storeChange p.store } p' hinv hstep) hq

/-- C14: in every state reached from a freshly constructed project by a sequence of `load`,
`refresh`, `forceRefresh` and `clearStorage` calls (with any answers of the collaborators
and any changes to the store in between), if a storage handle is present then the state is
not `NOT_LOADED`. -/
theorem C14_storage_handle_implies_loaded [LinearOrder Path] (S : StorageOps σ ι Path)
    (steps : List (Step σ ι Path)) (store : σ) (q : Project σ Path)
    (hrun : runCalls S steps (Project.new store) = some q)
    (hhandle : q.m_storage.isSome = true) :
    q.m_state ≠ PROJECT_STATE_NOT_LOADED :=
  runCalls_invariant S steps (Project.new store) q (by simp [Project.new]) hrun hhandle

/-- C14, run on a failed `load` followed by `clearStorage`: a handle is present and the state
is `EMPTY`. -/
theorem C14_storage_handle_implies_loaded_witness :
    ∃ q, runCalls demoOps
        [⟨id, demoEnv false true 1 2 ∅ ∅ ∅, Call.load⟩,
         ⟨id, demoEnv false true 1 2 ∅ ∅ ∅, Call.clearStorage⟩]
        (Project.new ⟨false, false, "old", []⟩) = some q ∧
      q.m_storage.isSome = true ∧ q.m_state ≠ PROJECT_STATE_NOT_LOADED :=
  ⟨_, rfl, rfl, C14_storage_handle_implies_loaded demoOps
    [⟨id, demoEnv false true 1 2 ∅ ∅ ∅, Call.load⟩,
     ⟨id, demoEnv false true 1 2 ∅ ∅ ∅, Call.clearStorage⟩]
    ⟨false, false, "old", []⟩ _ rfl rfl⟩

/-- C19: when the reload succeeds and no dialog can be shown (no GUI, or a trial build),
`load` returns, and the `switch` sets `reparse` exactly when the store was classified
`OUTVERSIONED` (not empty, incompatible). In that case the store is cleared once and
`buildIndex` runs once on the cleared store, and `load` ends in state `LOADED` with a
storage handle. For a store classified `OUTDATED` there is no `clear` and no `buildIndex`,
and the state stays `OUTDATED`. -/
theorem C19_load_without_prompt [LinearOrder Path] (S : StorageOps σ ι Path)
    (E : Environment ι Path) (p : Project σ Path)
    (hreload : E.reload p.reloads = true) (hask : (E.hasGUI && !E.isTrial) = false) :
    ∃ q r,
      loadSwitch S E
        ((loadOpen S E { p with reloads := p.reloads + 1 }).emit Event.updateFileManager) =
          some r ∧
      load S E p = some q ∧
      (r.2 = true ↔ (S.isEmpty p.store = false ∧ S.isIncompatible p.store = true)) ∧
      (S.isEmpty p.store = false → S.isIncompatible p.store = true →
        q.m_state = PROJECT_STATE_LOADED ∧ q.m_storage.isSome = true ∧
        q.store = S.setProjectSettingsText E.settingsText (S.clear p.store) ∧
        (newEvents p q).filter Event.isClear = [Event.clear] ∧
        (newEvents p q).filter Event.isBuildIndex = [Event.buildIndex]) ∧
      (S.isEmpty p.store = false → S.isIncompatible p.store = false →
        E.settingsText ≠ S.getProjectSettingsText p.store →
        q.m_state = PROJECT_STATE_OUTDATED ∧ q.m_storage.isSome = true ∧
        q.store = S.finishParsing p.store ∧
        (newEvents p q).filter Event.isClear = [] ∧
        (newEvents p q).filter Event.isBuildIndex = []) := by
  rw [load_of_reload S E p hreload]
  cases h1 : S.isEmpty p.store
  · cases h2 : S.isIncompatible p.store
    · by_cases h3 : E.settingsText = S.getProjectSettingsText p.store
      · have hsw : loadSwitch S E
            ((loadOpen S E { p with reloads := p.reloads + 1 }).emit Event.updateFileManager) =
            some ({ m_state := PROJECT_STATE_LOADED, m_storage := some p.fresh,
                    store := S.finishParsing p.store,
                    reloads := p.reloads + 1, fresh := p.fresh + 1,
                    log := p.log ++
                      [Event.setDelimiter, Event.newStorage p.fresh, Event.setSubject p.fresh,
                       Event.updateFileManager, Event.finishParsing,
                       Event.MessageFinishedParsing 0 0 0 true] }, false) := by
          simp [loadSwitch, loadOpen, loadFinish, Project.emit, Project.makeStorage, h1, h2, h3,
            hask]
        refine ⟨_, _, hsw, by rw [hsw]; rfl, by simp, by simp, ?_⟩
        intro _ _ hne
        exact absurd h3 hne
      · have hsw : loadSwitch S E
            ((loadOpen S E { p with reloads := p.reloads + 1 }).emit Event.updateFileManager) =
            some ({ m_state := PROJECT_STATE_OUTDATED, m_storage := some p.fresh,
                    store := S.finishParsing p.store,
                    reloads := p.reloads + 1, fresh := p.fresh + 1,
                    log := p.log ++
                      [Event.setDelimiter, Event.newStorage p.fresh, Event.setSubject p.fresh,
                       Event.updateFileManager, Event.finishParsing,
                       Event.MessageFinishedParsing 0 0 0 true] }, false) := by
          simp [loadSwitch, loadOpen, loadFinish, Project.emit, Project.makeStorage, h1, h2, h3,
            hask]
        refine ⟨_, _, hsw, by rw [hsw]; rfl, by simp, by simp, ?_⟩
        intro _ _ _
        refine ⟨rfl, rfl, rfl, ?_, ?_⟩
        · rw [newEvents_of_log_eq p _ _ rfl]
          simp [List.filter, Event.isClear]
        · rw [newEvents_of_log_eq p _ _ rfl]
          simp [List.filter, Event.isBuildIndex]
    · have hsw : loadSwitch S E
          ((loadOpen S E { p with reloads := p.reloads + 1 }).emit Event.updateFileManager) =
          some ({ m_state := PROJECT_STATE_OUTVERSIONED, m_storage := none, store := p.store,
                  reloads := p.reloads + 1, fresh := p.fresh + 1,
                  log := p.log ++
                    [Event.setDelimiter, Event.newStorage p.fresh, Event.setSubject p.fresh,
                     Event.updateFileManager, Event.MessageStatus "Can't load project",
                     Event.resetStorage] }, true) := by
        simp [loadSwitch, loadOpen, Project.emit, Project.makeStorage, h1, h2, hask]
      obtain ⟨q, l, hq, hs, hm, hst, hlog, hb, hc⟩ := forceRefresh_spec S E
        ({ m_state := PROJECT_STATE_OUTVERSIONED, m_storage := none, store := p.store,
           reloads := p.reloads + 1, fresh := p.fresh + 1,
           log := p.log ++
             [Event.setDelimiter, Event.newStorage p.fresh, Event.setSubject p.fresh,
              Event.updateFileManager, Event.MessageStatus "Can't load project",
              Event.resetStorage] } : Project σ Path)
      refine ⟨q, _, hsw, by rw [hsw]; simpa using hq, by simp, ?_, by simp⟩
      intro _ _
      refine ⟨hs, by simp [hm], hst, ?_, ?_⟩
      · simp only [newEvents, hlog, List.append_assoc, List.drop_left]
        simp [List.filter_append, hc, List.filter, Event.isClear]
      · simp only [newEvents, hlog, List.append_assoc, List.drop_left]
        simp [List.filter_append, hb, List.filter, Event.isBuildIndex]
  · obtain ⟨q', hq', hs', hm', -⟩ := buildIndex_spec S E
      ((loadOpen S E { p with reloads := p.reloads + 1 }).emit Event.updateFileManager)
      p.fresh (loadOpen_spec S E { p with reloads := p.reloads + 1 }).1
    have hstate : ((loadOpen S E { p with reloads := p.reloads + 1 }).emit
        Event.updateFileManager).m_state = PROJECT_STATE_EMPTY := by
      simp [loadOpen, Project.emit, Project.makeStorage, h1]
    refine ⟨{ q' with m_state := PROJECT_STATE_LOADED },
      ({ q' with m_state := PROJECT_STATE_LOADED }, false), ?_, ?_, by simp, by simp, by simp⟩
    · simp [loadSwitch, hstate, hq']
    · simp [loadSwitch, hstate, hq']

/-- C19, run on an incompatible store without a GUI: `load` clears and rebuilds, and ends in
state `LOADED` with a storage handle. -/
theorem C19_load_without_prompt_witness :
    ∃ q, load demoOps (demoEnv true false 1 2 ∅ ∅ ∅)
        (Project.new ⟨false, true, "old", []⟩) = some q ∧
      q.m_state = PROJECT_STATE_LOADED ∧ q.m_storage.isSome = true := by
  obtain ⟨q, r, -, hq, -, h, -⟩ := C19_load_without_prompt demoOps
    (demoEnv true false 1 2 ∅ ∅ ∅) (Project.new ⟨false, true, "old", []⟩) rfl rfl
  exact ⟨q, hq, (h rfl rfl).1, (h rfl rfl).2.1⟩

/-! ### Reading lines -/

/-- What is left after extracting a line is not longer than the input. -/
theorem extractLine_rest_length_le (cs : List Char) :
    (extractLine cs).2.1.length ≤ cs.length := by
  induction cs with
  | nil => simp [extractLine]
  | cons c cs ih =>
    by_cases hc : c = '\n'
    · simp [extractLine, hc]
    · rcases h : extractLine cs with ⟨l, r, d⟩
      rw [h] at ih
      simp only [extractLine, hc, if_false, h, List.length_cons]
      simp only at ih
      omega

/-- Extracting a line from a non-empty input consumes at least one character. -/
theorem extractLine_rest_length_lt (c : Char) (cs : List Char) :
    (extractLine (c :: cs)).2.1.length < (c :: cs).length := by
  have ih := extractLine_rest_length_le cs
  by_cases hc : c = '\n'
  · simp [extractLine, hc]
  · rcases h : extractLine cs with ⟨l, r, d⟩
    rw [h] at ih
    simp only [extractLine, hc, if_false, h, List.length_cons]
    simp only at ih
    omega

/-- From a non-empty input `getline` extracts a character or finds a newline. -/
theorem extractLine_cons_ok (c : Char) (cs : List Char) :
    (!(extractLine (c :: cs)).2.2 && (extractLine (c :: cs)).1.isEmpty) = false := by
  by_cases hc : c = '\n'
  · simp [extractLine, hc]
  · rcases h : extractLine cs with ⟨l, r, d⟩
    simp [extractLine, hc, h]

/-- The stream and the success of `getline` do not depend on the old content of `line`, and
neither does the line read when the call succeeds. -/
theorem getline_line_irrelevant (stream : IStream) (line : StdString) :
    (getline stream line).1 = (getline stream []).1 ∧
      (getline stream line).2.2 = (getline stream []).2.2 ∧
      ((getline stream line).2.2 = true →
        (getline stream line).2.1 = (getline stream []).2.1) := by
  unfold getline
  split <;> simp

/-- A successful `getline` consumes at least one character. -/
theorem getline_consumes (stream : IStream) (line : StdString)
    (h : (getline stream line).2.2 = true) :
    (getline stream line).1.rest.length < stream.rest.length := by
  by_cases hgood : (stream.eofbit || stream.failbit) = true
  · simp [getline, hgood] at h
  · cases hr : stream.rest with
    | nil => simp [getline, hgood, hr, extractLine] at h
    | cons c cs =>
      have := extractLine_rest_length_lt c cs
      simpa [getline, hgood, hr] using this

/-- A failed `getline` leaves `failbit` set. -/
theorem getline_false_failbit (stream : IStream) (line : StdString)
    (h : (getline stream line).2.2 = false) : (getline stream line).1.failbit = true := by
  by_cases hgood : (stream.eofbit || stream.failbit) = true
  · simp [getline, hgood]
  · simp only [getline, hgood, Bool.false_eq_true, if_false] at h ⊢
    simpa using h

/-- On a stream with `failbit` set `getline` fails. -/
theorem getline_of_failbit (stream : IStream) (line : StdString)
    (h : stream.failbit = true) : (getline stream line).2.2 = false := by
  simp [getline, h]

/-- With enough fuel the lines read do not depend on the fuel. -/
theorem readLinesAux_fuel :
    ∀ (f g : Nat) (stream : IStream), stream.rest.length + 1 ≤ f →
      stream.rest.length + 1 ≤ g → readLinesAux f stream = readLinesAux g stream := by
  intro f
  induction f with
  | zero => intro g stream hf; omega
  | succ f ih =>
    intro g stream hf hg
    cases g with
    | zero => omega
    | succ g =>
      simp only [readLinesAux]
      have hc := getline_consumes stream []
      rcases hgl : getline stream [] with ⟨s', l', ok⟩
      rw [hgl] at hc
      cases ok with
      | false => rfl
      | true =>
        simp only
        have hlt := hc rfl
        simp only at hlt
        rw [ih g s' (by omega) (by omega)]

/-- A successful `getline` reads the first of the lines of the stream and leaves the others. -/
theorem readLines_of_getline_true (stream : IStream) (line : StdString)
    (h : (getline stream line).2.2 = true) :
    readLines stream = (getline stream line).2.1 :: readLines (getline stream line).1 := by
  obtain ⟨h1, h2, h3⟩ := getline_line_irrelevant stream line
  have hc := getline_consumes stream line h
  rw [h3 h, h1] at *
  rw [h2] at h
  unfold readLines
  rcases hgl : getline stream [] with ⟨s', l', ok⟩
  rw [hgl] at h hc
  simp only at h hc
  subst h
  have e : readLinesAux (stream.rest.length + 1) stream =
      l' :: readLinesAux stream.rest.length s' := by
    simp only [readLinesAux, hgl]
  rw [e, readLinesAux_fuel (stream.rest.length) (s'.rest.length + 1) s' (by omega) (by omega)]

/-- A failed `getline` means the stream has no line, and it has none afterwards. -/
theorem readLines_of_getline_false (stream : IStream) (line : StdString)
    (h : (getline stream line).2.2 = false) :
    readLines stream = [] ∧ readLines (getline stream line).1 = [] := by
  constructor
  · obtain ⟨-, h2, -⟩ := getline_line_irrelevant stream line
    rw [h2] at h
    unfold readLines
    simp only [readLinesAux]
    rcases hgl : getline stream [] with ⟨s', l', ok⟩
    rw [hgl] at h
    simp only at h
    subst h
    rfl
  · have h' := getline_of_failbit (getline stream line).1 []
      (getline_false_failbit stream line h)
    unfold readLines
    simp only [readLinesAux]
    rcases hgl : getline (getline stream line).1 [] with ⟨s', l', ok⟩
    rw [hgl] at h'
    simp only at h'
    subst h'
    rfl

/-- Reading and pushing `n` lines succeeds when the stream has `n` lines: they are appended
to `lines` and the stream is left with the remaining lines. -/
theorem readAndPush_enough :
    ∀ (n : Nat) (st : LoadState), n ≤ (readLines st.stream).length →
      ∃ st', readAndPush n st = (st', true) ∧
        st'.lines = st.lines ++ (readLines st.stream).take n ∧
        readLines st'.stream = (readLines st.stream).drop n := by
  intro n
  induction n with
  | zero =>
    intro st _
    exact ⟨st, rfl, by simp, by simp⟩
  | succ n ih =>
    intro st hn
    cases hok : (getline st.stream st.line).2.2 with
    | false =>
      rw [(readLines_of_getline_false st.stream st.line hok).1] at hn
      simp at hn
    | true =>
      have hrl := readLines_of_getline_true st.stream st.line hok
      rcases hgl : getline st.stream st.line with ⟨s', l', ok⟩
      rw [hgl] at hok hrl
      simp only at hok hrl
      subst hok
      rw [hrl] at hn
      obtain ⟨st', h1, h2, h3⟩ := ih { stream := s', line := l', lines := st.lines ++ [l'] }
        (by simpa using hn)
      refine ⟨st', ?_, ?_, ?_⟩
      · simp only [readAndPush, hgl]
        exact h1
      · rw [h2, hrl]
        simp
      · rw [h3, hrl]
        simp

/-- Reading and pushing `n` lines fails when the stream has fewer than `n` lines. -/
theorem readAndPush_short :
    ∀ (n : Nat) (st : LoadState), (readLines st.stream).length < n →
      (readAndPush n st).2 = false := by
  intro n
  induction n with
  | zero => intro st hn; omega
  | succ n ih =>
    intro st hn
    cases hok : (getline st.stream st.line).2.2 with
    | false =>
      rcases hgl : getline st.stream st.line with ⟨s', l', ok⟩
      rw [hgl] at hok
      simp only at hok
      subst hok
      simp only [readAndPush, hgl]
    | true =>
      have hrl := readLines_of_getline_true st.stream st.line hok
      rcases hgl : getline st.stream st.line with ⟨s', l', ok⟩
      rw [hgl] at hok hrl
      simp only at hok hrl
      subst hok
      rw [hrl] at hn
      simp only [readAndPush, hgl]
      exact ih { stream := s', line := l', lines := st.lines ++ [l'] } (by simpa using hn)

/-- The footer of `load`: whatever the last `getline` gives, the line pushed is
`END_LICENSE`. -/
theorem load_footer (END_LICENSE : StdString) (lines : List StdString) (line : StdString) :
    (if line ≠ END_LICENSE then (true, lines ++ [END_LICENSE]) else (true, lines ++ [line])) =
      (true, lines ++ [END_LICENSE]) := by
  by_cases h : line = END_LICENSE <;> simp [h]

/-- Lines 129 to 168 of `load`, when the stream still has ten lines: the return value is
`true` and `lines` gains the current line, the ten lines and `END_LICENSE`. -/
theorem loadRest_enough (END_LICENSE : StdString) (st : LoadState)
    (h : 10 ≤ (readLines st.stream).length) :
    loadRest END_LICENSE st =
      (true, st.lines ++ [st.line] ++ (readLines st.stream).take 10 ++ [END_LICENSE]) := by
  obtain ⟨st1, h1, l1, r1⟩ := readAndPush_enough 2
    { st with lines := st.lines ++ [st.line] } (by simpa using by omega)
  obtain ⟨st2, h2, l2, r2⟩ := readAndPush_enough 1 st1 (by rw [r1]; simp; omega)
  obtain ⟨st3, h3, l3, r3⟩ := readAndPush_enough 7 st2 (by rw [r2, r1]; simp; omega)
  simp only [loadRest, h1, h2, h3]
  rcases getline st3.stream st3.line with ⟨s', l', ok⟩
  simp only
  rw [load_footer, l3, l2, l1, r2, r1]
  simp only [List.drop_drop, List.append_assoc, Prod.mk.injEq, true_and,
    List.append_cancel_left_eq]
  have e : List.take 10 (readLines st.stream) =
      List.take 2 (readLines st.stream) ++ (List.take 1 (List.drop 2 (readLines st.stream)) ++
        List.take 7 (List.drop 3 (readLines st.stream))) := by
    rw [show (10 : Nat) = 2 + (1 + 7) from rfl, List.take_add, List.take_add, List.drop_drop]
  rw [e]
  simp [List.append_assoc]

/-- Lines 129 to 168 of `load`, when the stream has fewer than ten lines left: the return
value is `false`. -/
theorem loadRest_short (END_LICENSE : StdString) (st : LoadState)
    (h : (readLines st.stream).length < 10) :
    (loadRest END_LICENSE st).1 = false := by
  unfold loadRest
  by_cases c1 : 2 ≤ (readLines st.stream).length
  · obtain ⟨st1, h1, -, r1⟩ := readAndPush_enough 2
      { st with lines := st.lines ++ [st.line] } (by simpa using c1)
    simp only [h1]
    simp only at r1
    by_cases c2 : 3 ≤ (readLines st.stream).length
    · obtain ⟨st2, h2, -, r2⟩ := readAndPush_enough 1 st1 (by rw [r1]; simp; omega)
      simp only [h2]
      have hs := readAndPush_short 7 st2 (by rw [r2, r1]; simp; omega)
      rcases h3 : readAndPush 7 st2 with ⟨st3, ok⟩
      rw [h3] at hs
      simp only at hs
      subst hs
      rfl
    · have hs := readAndPush_short 1 st1 (by rw [r1]; simp; omega)
      rcases h2 : readAndPush 1 st1 with ⟨st2, ok⟩
      rw [h2] at hs
      simp only at hs
      subst hs
      rfl
  · have hs := readAndPush_short 2 { st with lines := st.lines ++ [st.line] }
      (by simpa using by omega)
    rcases h1 : readAndPush 2 { st with lines := st.lines ++ [st.line] } with ⟨st1, ok⟩
    rw [h1] at hs
    simp only at hs
    subst hs
    simp only [h1]

/-- On a stream without a line `load` returns `false`. -/
theorem License_load_nil (BEGIN_LICENSE END_LICENSE : StdString) (stream : IStream)
    (h : readLines stream = []) :
    (License.load BEGIN_LICENSE END_LICENSE stream).1 = false := by
  cases hok : (getline stream []).2.2 with
  | true =>
    rw [readLines_of_getline_true stream [] hok] at h
    simp at h
  | false =>
    rcases hgl : getline stream [] with ⟨s', l', ok⟩
    rw [hgl] at hok
    simp only at hok
    subst hok
    simp only [License.load, hgl]

/-- On a stream whose first line is not the header: `load` returns `true` when ten more
lines follow, with `lines` made of `BEGIN_LICENSE`, the first eleven lines and
`END_LICENSE`; otherwise it returns `false`. -/
theorem License_load_no_header (BEGIN_LICENSE END_LICENSE : StdString) (stream : IStream)
    (l0 : StdString) (ls : List StdString) (h : readLines stream = l0 :: ls)
    (hne : l0 ≠ BEGIN_LICENSE) :
    (10 ≤ ls.length →
      License.load BEGIN_LICENSE END_LICENSE stream =
        (true, { lines := BEGIN_LICENSE :: l0 :: ls.take 10 ++ [END_LICENSE] })) ∧
    (ls.length < 10 → (License.load BEGIN_LICENSE END_LICENSE stream).1 = false) := by
  cases hok : (getline stream []).2.2 with
  | false =>
    rw [(readLines_of_getline_false stream [] hok).1] at h
    simp at h
  | true =>
    have hrl := readLines_of_getline_true stream [] hok
    rcases hgl : getline stream [] with ⟨s', l', ok⟩
    rw [hgl] at hok hrl
    simp only at hok hrl
    subst hok
    rw [h] at hrl
    obtain ⟨rfl, rfl⟩ := List.cons.inj hrl
    constructor
    · intro hlen
      simp only [License.load, hgl, hne, ne_eq, not_false_eq_true, if_true]
      rw [loadRest_enough END_LICENSE _ hlen]
      simp
    · intro hlen
      simp only [License.load, hgl, hne, ne_eq, not_false_eq_true, if_true]
      have := loadRest_short END_LICENSE
        { stream := s', line := l0, lines := [] ++ [BEGIN_LICENSE] } hlen
      rcases hr : loadRest END_LICENSE
        { stream := s', line := l0, lines := [] ++ [BEGIN_LICENSE] } with ⟨res, lines⟩
      rw [hr] at this
      exact this

/-- On a stream whose first line is the header: `load` returns `true` when eleven more
lines follow, with `lines` made of the first twelve lines and `END_LICENSE`; otherwise it
returns `false`. -/
theorem License_load_header (BEGIN_LICENSE END_LICENSE : StdString) (stream : IStream)
    (ls : List StdString) (h : readLines stream = BEGIN_LICENSE :: ls) :
    (11 ≤ ls.length →
      License.load BEGIN_LICENSE END_LICENSE stream =
        (true, { lines := BEGIN_LICENSE :: ls.take 11 ++ [END_LICENSE] })) ∧
    (ls.length < 11 → (License.load BEGIN_LICENSE END_LICENSE stream).1 = false) := by
  cases hok : (getline stream []).2.2 with
  | false =>
    rw [(readLines_of_getline_false stream [] hok).1] at h
    simp at h
  | true =>
    have hrl := readLines_of_getline_true stream [] hok
    rcases hgl : getline stream [] with ⟨s', l', ok⟩
    rw [hgl] at hok hrl
    simp only at hok hrl
    subst hok
    rw [h] at hrl
    obtain ⟨rfl, rfl⟩ := List.cons.inj hrl
    cases hok2 : (getline s' BEGIN_LICENSE).2.2 with
    | false =>
      have hnil := (readLines_of_getline_false s' BEGIN_LICENSE hok2).1
      rcases hgl2 : getline s' BEGIN_LICENSE with ⟨s2, l2, ok2⟩
      rw [hgl2] at hok2
      simp only at hok2
      subst hok2
      constructor
      · intro hlen
        rw [hnil] at hlen
        simp at hlen
      · intro _
        simp only [License.load, hgl, ne_eq, not_true_eq_false, if_false, hgl2]
    | true =>
      have hrl2 := readLines_of_getline_true s' BEGIN_LICENSE hok2
      rcases hgl2 : getline s' BEGIN_LICENSE with ⟨s2, l2, ok2⟩
      rw [hgl2] at hok2 hrl2
      simp only at hok2 hrl2
      subst hok2
      constructor
      · intro hlen
        rw [hrl2] at hlen
        simp only [License.load, hgl, ne_eq, not_true_eq_false, if_false, hgl2]
        rw [loadRest_enough END_LICENSE _
          (by simp only [List.length_cons] at hlen; simp only; omega), hrl2]
        simp
      · intro hlen
        rw [hrl2] at hlen
        simp only [License.load, hgl, ne_eq, not_true_eq_false, if_false, hgl2]
        have := loadRest_short END_LICENSE
          { stream := s2, line := l2, lines := [] ++ [BEGIN_LICENSE] }
          (by simp only [List.length_cons] at hlen; simp only; omega)
        rcases hr : loadRest END_LICENSE
          { stream := s2, line := l2, lines := [] ++ [BEGIN_LICENSE] } with ⟨res, lines⟩
        rw [hr] at this
        exact this

/-- When `load` returns `true`, `lines` is `BEGIN_LICENSE`, eleven lines and `END_LICENSE`. -/
theorem License_load_true_shape (BEGIN_LICENSE END_LICENSE : StdString) (stream : IStream)
    (h : (License.load BEGIN_LICENSE END_LICENSE stream).1 = true) :
    ∃ mid : List StdString, mid.length = 11 ∧
      (License.load BEGIN_LICENSE END_LICENSE stream).2.lines =
        BEGIN_LICENSE :: mid ++ [END_LICENSE] := by
  cases hrl : readLines stream with
  | nil =>
    rw [License_load_nil BEGIN_LICENSE END_LICENSE stream hrl] at h
    exact absurd h (by decide)
  | cons l0 ls =>
    by_cases hb : l0 = BEGIN_LICENSE
    · subst hb
      obtain ⟨h1, h2⟩ := License_load_header l0 END_LICENSE stream ls hrl
      by_cases hlen : 11 ≤ ls.length
      · rw [h1 hlen]
        exact ⟨ls.take 11, by simp [hlen], rfl⟩
      · rw [h2 (by omega)] at h
        exact absurd h (by decide)
    · obtain ⟨h1, h2⟩ := License_load_no_header BEGIN_LICENSE END_LICENSE stream l0 ls hrl hb
      by_cases hlen : 10 ≤ ls.length
      · rw [h1 hlen]
        exact ⟨l0 :: ls.take 10, by simp [hlen], rfl⟩
      · rw [h2 (by omega)] at h
        exact absurd h (by decide)

/-- The loop that concatenates `n` lines from index `i` stays in bounds when `lines` has
`i + n` entries. -/
theorem appendLines_isSome (lines : List StdString) :
    ∀ (n i : Nat) (text : StdString), i + n ≤ lines.length →
      (appendLines lines i n text).isSome = true := by
  intro n
  induction n with
  | zero => intro i text _; rfl
  | succ n ih =>
    intro i text h
    have hi : i < lines.length := by omega
    simp only [appendLines, List.getElem?_eq_getElem hi]
    exact ih (i + 1) _ (by omega)

/-- C15: for every input stream, when `load` returns `true` the license has exactly 13
lines, the first is `BEGIN_LICENSE` and the last is `END_LICENSE`, whether or not the input
had the header or the footer; so `getOwnerLine`, `getLicenseTypeLine`, `getVersionLine`,
`getHashLine`, `getMessage` and `getSignature` all index inside `lines`. -/
theorem C15_load_true_thirteen_lines (BEGIN_LICENSE END_LICENSE : StdString)
    (stream : IStream) (h : (License.load BEGIN_LICENSE END_LICENSE stream).1 = true) :
    (License.load BEGIN_LICENSE END_LICENSE stream).2.lines.length = 13 ∧
      (License.load BEGIN_LICENSE END_LICENSE stream).2.lines.head? = some BEGIN_LICENSE ∧
      (License.load BEGIN_LICENSE END_LICENSE stream).2.lines.getLast? = some END_LICENSE ∧
      (License.load BEGIN_LICENSE END_LICENSE stream).2.getOwnerLine.isSome = true ∧
      (License.load BEGIN_LICENSE END_LICENSE stream).2.getLicenseTypeLine.isSome = true ∧
      (License.load BEGIN_LICENSE END_LICENSE stream).2.getVersionLine.isSome = true ∧
      (License.load BEGIN_LICENSE END_LICENSE stream).2.getHashLine.isSome = true ∧
      (License.load BEGIN_LICENSE END_LICENSE stream).2.getMessage.isSome = true ∧
      (License.load BEGIN_LICENSE END_LICENSE stream).2.getSignature.isSome = true := by
  obtain ⟨mid, hmid, hlines⟩ := License_load_true_shape BEGIN_LICENSE END_LICENSE stream h
  have hlen : (License.load BEGIN_LICENSE END_LICENSE stream).2.lines.length = 13 := by
    rw [hlines]
    simp [hmid]
  refine ⟨hlen, by rw [hlines]; rfl, ?_, ?_, ?_, ?_, ?_, ?_, ?_⟩
  · rw [hlines, List.getLast?_concat]
  · simp only [License.getOwnerLine]
    rw [List.getElem?_eq_getElem (by omega)]
    rfl
  · simp only [License.getLicenseTypeLine]
    rw [List.getElem?_eq_getElem (by omega)]
    rfl
  · simp only [License.getVersionLine]
    rw [List.getElem?_eq_getElem (by omega)]
    rfl
  · simp only [License.getHashLine]
    rw [List.getElem?_eq_getElem (by omega)]
    rfl
  · exact appendLines_isSome _ 4 1 [] (by omega)
  · exact appendLines_isSome _ 7 5 [] (by omega)

/-- C16: for every input text, `loadFromString` returns `false` exactly when the text has too
few lines: with k the number of lines `getline` can read from it, when k = 0, or the first
line is `BEGIN_LICENSE` and k < 12, or the first line is not `BEGIN_LICENSE` and k < 11.
The footer plays no part. -/
theorem C16_loadFromString_false_iff (BEGIN_LICENSE END_LICENSE : StdString)
    (licenseText : StdString) :
    (License.loadFromString BEGIN_LICENSE END_LICENSE licenseText).1 = false ↔
      ((readLines (IStream.ofString licenseText)).length = 0 ∨
        ((readLines (IStream.ofString licenseText)).head? = some BEGIN_LICENSE ∧
          (readLines (IStream.ofString licenseText)).length < 12) ∨
        ((readLines (IStream.ofString licenseText)).head? ≠ some BEGIN_LICENSE ∧
          (readLines (IStream.ofString licenseText)).length < 11)) := by
  unfold License.loadFromString
  cases hrl : readLines (IStream.ofString licenseText) with
  | nil =>
    simp [License_load_nil BEGIN_LICENSE END_LICENSE _ hrl]
  | cons l0 ls =>
    by_cases hb : l0 = BEGIN_LICENSE
    · subst hb
      obtain ⟨h1, h2⟩ := License_load_header l0 END_LICENSE _ ls hrl
      by_cases hlen : 11 ≤ ls.length
      · rw [h1 hlen]
        constructor
        · intro hf
          simp at hf
        · rintro (hk | ⟨-, hk⟩ | ⟨hh, -⟩)
          · simp at hk
          · simp only [List.length_cons] at hk
            omega
          · exact absurd rfl hh
      · rw [h2 (by omega)]
        simp only [List.length_cons, List.head?_cons, true_iff]
        right
        left
        exact ⟨trivial, by omega⟩
    · obtain ⟨h1, h2⟩ := License_load_no_header BEGIN_LICENSE END_LICENSE _ l0 ls hrl hb
      by_cases hlen : 10 ≤ ls.length
      · rw [h1 hlen]
        constructor
        · intro hf
          simp at hf
        · rintro (hk | ⟨hh, -⟩ | ⟨-, hk⟩)
          · simp at hk
          · exact absurd (Option.some.inj hh) hb
          · simp only [List.length_cons] at hk
            omega
      · rw [h2 (by omega)]
        simp only [List.length_cons, List.head?_cons, true_iff]
        right
        right
        exact ⟨by simpa using hb, by omega⟩

/-- C15, run on a text of eleven lines without header and footer: `load` returns `true` and
the license has 13 lines. -/
theorem C15_load_true_thirteen_lines_witness :
    (License.load ['B'] ['E']
      (IStream.ofString "o\nt\nv\nh\n1\n2\n3\n4\n5\n6\n7".toList)).2.lines.length = 13 :=
  (C15_load_true_thirteen_lines ['B'] ['E']
    (IStream.ofString "o\nt\nv\nh\n1\n2\n3\n4\n5\n6\n7".toList) (by decide)).1

/-! ### The round trip of the license text -/

/-- From a text that starts with a line without newline, then a newline, `getline` extracts
that line. -/
theorem extractLine_append_newline (line rest : List Char) (h : '\n' ∉ line) :
    extractLine (line ++ '\n' :: rest) = (line, rest, true) := by
  induction line with
  | nil => simp [extractLine]
  | cons c cs ih =>
    have hc : c ≠ '\n' := fun e => h (by simp [e])
    have hcs : '\n' ∉ cs := fun e => h (List.mem_cons_of_mem _ e)
    simp [extractLine, hc, ih hcs]

/-- The lines of a text made of newline-free lines, each followed by a newline, are those
lines. -/
theorem readLines_lines_text :
    ∀ (lines : List StdString), (∀ l ∈ lines, '\n' ∉ l) →
      readLines (IStream.ofString (lines.flatMap (fun line => line ++ ['\n']))) = lines := by
  intro lines
  induction lines with
  | nil => intro _; rfl
  | cons l ls ih =>
    intro h
    have hl : '\n' ∉ l := h l (List.mem_cons_self _ _)
    have hgl : getline (IStream.ofString ((l :: ls).flatMap (fun line => line ++ ['\n']))) [] =
        (IStream.ofString (ls.flatMap (fun line => line ++ ['\n'])), l, true) := by
      simp [getline, IStream.ofString, List.flatMap_cons, List.append_assoc,
        extractLine_append_newline _ _ hl]
    have := readLines_of_getline_true
      (IStream.ofString ((l :: ls).flatMap (fun line => line ++ ['\n']))) [] (by rw [hgl])
    rw [this, hgl]
    simp only
    rw [ih (fun l' hl' => h l' (List.mem_cons_of_mem _ hl'))]

/-- C17: for every license whose 13 lines contain no newline, with first line
`BEGIN_LICENSE` and last line `END_LICENSE`, loading the text given by `getLicenseString`
returns `true` and gives the same lines back. -/
theorem C17_license_text_round_trip (BEGIN_LICENSE END_LICENSE : StdString)
    (license : License) (hlen : license.lines.length = 13)
    (hnl : ∀ l ∈ license.lines, '\n' ∉ l)
    (hfirst : license.lines.head? = some BEGIN_LICENSE)
    (hlast : license.lines.getLast? = some END_LICENSE) :
    License.loadFromString BEGIN_LICENSE END_LICENSE license.getLicenseString =
      (true, license) := by
  obtain ⟨lines⟩ := license
  simp only at hlen hnl hfirst hlast
  cases lines with
  | nil => simp at hlen
  | cons l0 ls =>
    simp only [List.head?_cons, Option.some.injEq] at hfirst
    subst hfirst
    have hls : ls.length = 12 := by simpa using hlen
    have hne : ls ≠ [] := by
      intro e
      rw [e] at hls
      simp at hls
    have hlast' : ls.getLast? = some END_LICENSE := by
      cases ls with
      | nil => exact absurd rfl hne
      | cons l1 ls' => simpa [List.getLast?_cons_cons] using hlast
    have hrl := readLines_lines_text (l0 :: ls) hnl
    have hload := (License_load_header l0 END_LICENSE _ ls hrl).1 (by omega)
    unfold License.loadFromString License.getLicenseString
    rw [hload]
    have htake : ls.take 11 = ls.dropLast := by
      rw [List.dropLast_eq_take, hls]
    have hback : ls.take 11 ++ [END_LICENSE] = ls := by
      rw [htake]
      exact List.dropLast_append_getLast? END_LICENSE (by simp [hlast'])
    simp only [List.cons_append, hback]

/-- C17, run on a license with one-character lines between header and footer. -/
theorem C17_license_text_round_trip_witness :
    License.loadFromString ['B'] ['E']
        (License.getLicenseString ⟨[['B'], ['o'], ['t'], ['v'], ['h'], ['1'], ['2'], ['3'],
          ['4'], ['5'], ['6'], ['7'], ['E']]⟩) =
      (true, ⟨[['B'], ['o'], ['t'], ['v'], ['h'], ['1'], ['2'], ['3'],
          ['4'], ['5'], ['6'], ['7'], ['E']]⟩) :=
  C17_license_text_round_trip ['B'] ['E']
    ⟨[['B'], ['o'], ['t'], ['v'], ['h'], ['1'], ['2'], ['3'],
      ['4'], ['5'], ['6'], ['7'], ['E']]⟩ rfl (by decide) rfl rfl

/-! ### The signature -/

/-- The loop of `addSignature` cuts the buffer and the remaining characters into pieces:
together they give the text back, every piece but the last has 55 characters, none has
more, and their number is fixed by the length of the text. -/
theorem addSignatureLoop_pieces :
    ∀ (cs : List Char) (i : Nat) (lines : List StdString) (ss : StdString),
      ss.length = (if i = 0 then 0 else (i - 1) % 55 + 1) →
      ∃ pieces : List StdString,
        (addSignatureLoop i lines ss cs).1 ++ [(addSignatureLoop i lines ss cs).2] =
          lines ++ pieces ∧
        pieces.flatten = ss ++ cs ∧
        (∀ c ∈ pieces.dropLast, c.length = 55) ∧
        (∀ c ∈ pieces, c.length ≤ 55) ∧
        pieces.length = (ss.length + cs.length - 1) / 55 + 1 := by
  intro cs
  induction cs with
  | nil =>
    intro i lines ss hss
    have hle : ss.length ≤ 55 := by
      split at hss <;> omega
    refine ⟨[ss], by simp [addSignatureLoop], by simp, by simp, by simpa using hle, ?_⟩
    simp only [List.length_singleton, List.length_nil, Nat.add_zero]
    omega
  | cons c cs ih =>
    intro i lines ss hss
    by_cases hi : i % 55 = 0 ∧ i ≠ 0
    · have hlen : ss.length = 55 := by
        rw [if_neg hi.2] at hss
        omega
      obtain ⟨pieces, h1, h2, h3, h4, h5⟩ := ih (i + 1) (lines ++ [ss]) [c] (by
        simp only [List.length_singleton, Nat.add_eq_zero, one_ne_zero, and_false, if_false,
          Nat.add_sub_cancel]
        omega)
      have hne : pieces ≠ [] := by
        intro e
        rw [e] at h5
        simp at h5
      refine ⟨ss :: pieces, ?_, ?_, ?_, ?_, ?_⟩
      · simp only [addSignatureLoop, hi, and_self, if_true, ne_eq, not_false_eq_true]
        rw [h1]
        simp
      · simp [h2]
      · intro x hx
        rw [List.dropLast_cons_of_ne_nil hne] at hx
        rcases List.mem_cons.mp hx with rfl | hx'
        · exact hlen
        · exact h3 x hx'
      · intro x hx
        rcases List.mem_cons.mp hx with rfl | hx'
        · omega
        · exact h4 x hx'
      · simp only [List.length_cons, List.length_singleton, List.length_nil,
          List.length_append] at h5 ⊢
        omega
    · have hlen : ss.length = i % 55 := by
        by_cases h0 : i = 0
        · simp [h0] at hss
          simp [h0, hss]
        · rw [if_neg h0] at hss
          have : i % 55 ≠ 0 := fun e => hi ⟨e, h0⟩
          omega
      obtain ⟨pieces, h1, h2, h3, h4, h5⟩ := ih (i + 1) lines (ss ++ [c]) (by
        simp only [List.length_append, List.length_singleton, Nat.add_eq_zero, one_ne_zero,
          and_false, if_false, Nat.add_sub_cancel]
        omega)
      refine ⟨pieces, ?_, ?_, h3, h4, ?_⟩
      · simp only [addSignatureLoop, hi, if_false]
        exact h1
      · simp [h2]
      · simp only [List.length_cons, List.length_singleton, List.length_nil,
          List.length_append] at h5 ⊢
        omega

/-- The loop that concatenates lines, run over a middle part of `lines`, appends the
concatenation of that part. -/
theorem appendLines_middle (post : List StdString) :
    ∀ (mid pre : List StdString) (text : StdString),
      appendLines (pre ++ mid ++ post) pre.length mid.length text =
        some (text ++ mid.flatten) := by
  intro mid
  induction mid with
  | nil => intro pre text; simp [appendLines]
  | cons m mid ih =>
    intro pre text
    have hget : (pre ++ m :: mid ++ post)[pre.length]? = some m := by
      rw [List.append_assoc, List.getElem?_append_right (Nat.le_refl _)]
      simp
    have hre : pre ++ m :: mid ++ post = (pre ++ [m]) ++ mid ++ post := by simp
    simp only [List.length_cons, appendLines, hget]
    rw [hre]
    have := ih (pre ++ [m]) (text ++ m)
    simp only [List.length_append, List.length_singleton] at this
    rw [this]
    simp

/-- C18: on a license with exactly 5 lines and a signature of 331 to 385 characters,
`addSignature` appends seven lines, each of 55 characters except the last (which has at most
55), and then `END_LICENSE`, 13 lines in all, and `getSignature` then returns the signature
unchanged. On any license with more than 5 lines, or with an empty signature, `addSignature`
leaves the license as it is. -/
theorem C18_signature_round_trip (END_LICENSE : StdString) (license : License)
    (signature : StdString) (h5 : license.lines.length = 5)
    (hlo : 331 ≤ signature.length) (hhi : signature.length ≤ 385) :
    (∃ pieces : List StdString,
      (License.addSignature END_LICENSE license signature).lines =
        license.lines ++ pieces ++ [END_LICENSE] ∧
      pieces.length = 7 ∧
      (∀ c ∈ pieces.dropLast, c.length = 55) ∧
      (∀ c ∈ pieces, c.length ≤ 55) ∧
      pieces.flatten = signature ∧
      (License.addSignature END_LICENSE license signature).lines.length = 13 ∧
      (License.addSignature END_LICENSE license signature).getSignature = some signature) ∧
    (∀ (other : License) (sig : StdString), (5 < other.lines.length ∨ sig.length = 0) →
      License.addSignature END_LICENSE other sig = other) := by
  constructor
  · obtain ⟨pieces, h1, h2, h3, h4, hn⟩ := addSignatureLoop_pieces signature 0 license.lines []
      (by simp)
    have hlines : (License.addSignature END_LICENSE license signature).lines =
        license.lines ++ pieces ++ [END_LICENSE] := by
      unfold License.addSignature
      rw [if_neg (by omega), if_neg (by omega)]
      simp only
      rw [h1]
    have hcount : pieces.length = 7 := by
      rw [hn]
      simp only [List.length_nil, Nat.zero_add]
      omega
    refine ⟨pieces, hlines, hcount, h3, h4, by simpa using h2, ?_, ?_⟩
    · rw [hlines]
      simp [h5, hcount]
    · unfold License.getSignature
      rw [hlines]
      have := appendLines_middle [END_LICENSE] pieces license.lines []
      rw [h5, hcount] at this
      rw [this]
      simpa using h2
  · intro other sig h
    unfold License.addSignature
    rcases h with h | h
    · rw [if_pos h]
    · by_cases h' : other.lines.length > 5
      · rw [if_pos h']
      · rw [if_neg h', if_pos h]

/-- C18, run on a license with five one-character lines and a signature of 331 characters:
`getSignature` returns the signature. -/
theorem C18_signature_round_trip_witness :
    (License.addSignature ['E'] ⟨[['B'], ['o'], ['t'], ['v'], ['h']]⟩
        (List.replicate 331 'x')).getSignature = some (List.replicate 331 'x') := by
  obtain ⟨_, -, -, -, -, -, -, h⟩ := (C18_signature_round_trip ['E']
    ⟨[['B'], ['o'], ['t'], ['v'], ['h']]⟩ (List.replicate 331 'x') rfl
    (le_of_eq (List.length_replicate 331 'x').symm)
    (le_trans (le_of_eq (List.length_replicate 331 'x')) (by decide))).1
  exact h
end Theorems

end Sourcetrail
